import Mathlib

/-!
Verification development for the biometric template subsystem of the
DevSecOps_With_Biometry backend.

The similarity-scoring pipelines of
`backend/services/face_recognition_service.py`,
`backend/services/fingerprint_recognition_service.py` and
`backend/services/voice_recognition_service.py` are embedded over exact
rationals.  NumPy float vectors become `List ℚ`.  The only operation that
leaves the rationals is the square root used by `np.linalg.norm`, `np.std`
and `np.corrcoef`; it is passed in as an explicit function argument
`rt : ℚ → ℚ` together with (per theorem, where the value matters) the
hypothesis `SqrtAt rt x` stating that `rt` is the exact nonnegative square
root at the point `x` actually evaluated.  Concrete instances use
`sqrtLookup`, which is the exact square root on the finitely many
radicands appearing in the concrete computations of this file.
-/

namespace Biometry

/-- `np.dot` on two equal-length float vectors (`List.zipWith` also matches
numpy in that the claims below only apply it to already length-aligned
vectors). -/
def dotQ (a b : List ℚ) : ℚ := (List.zipWith (fun x y => x * y) a b).sum

/-- Sum of squares of a vector: the square of `np.linalg.norm v`. -/
def sumSq (v : List ℚ) : ℚ := dotQ v v

/-- Componentwise difference, `new_encoding_array - stored_encoding_array`. -/
def subV (a b : List ℚ) : List ℚ := List.zipWith (fun x y => x - y) a b

/-- `np.mean` (division by zero yields 0 in ℚ; numpy gives nan for the
empty vector, which never reaches the metrics in the claims below). -/
def meanQ (v : List ℚ) : ℚ := v.sum / (v.length : ℚ)

/-- The vector of deviations from the mean. -/
def centered (v : List ℚ) : List ℚ := v.map (fun x => x - meanQ v)

/-- `rt` computes the exact nonnegative square root at the point `x`. -/
abbrev SqrtAt (rt : ℚ → ℚ) (x : ℚ) : Prop := 0 ≤ rt x ∧ rt x * rt x = x

/-- A concrete instance for the square-root parameter: the exact
nonnegative square root on the finitely many radicands at which the
concrete computations of this file evaluate it (each use is covered by a
`SqrtAt` fact discharged on the spot). -/
def sqrtLookup (q : ℚ) : ℚ :=
  if q = 0 then 0 else if q = 1 then 1 else if q = 4 then 2
  else if q = 49 then 7 else 0

/-- Cosine similarity as computed identically by all three services:
`dot_product / (norm_a * norm_b)`, guarded to `0` when either norm is `0`
(face_recognition_service.py lines 259-267, fingerprint lines 202-210,
voice lines 191-199). -/
def cosineSim (rt : ℚ → ℚ) (a b : List ℚ) : ℚ :=
  let na := rt (sumSq a)
  let nb := rt (sumSq b)
  if na = 0 ∨ nb = 0 then 0 else dotQ a b / (na * nb)

/-- `np.corrcoef(a, b)[0, 1]`: the (ddof = 1) covariance divided by the
product of the two square roots of the (ddof = 1) variances, exactly as
numpy forms it.  In float a zero denominator gives nan; each modality
wrapper below models its own nan/zero-variance handling. -/
def corrcoefQ (rt : ℚ → ℚ) (a b : List ℚ) : ℚ :=
  let ca := centered a
  let cb := centered b
  let d : ℚ := (a.length : ℚ) - 1
  dotQ ca cb / d / (rt (sumSq ca / d) * rt (sumSq cb / d))

/-- Match result dictionary returned by the verify functions. -/
structure VerifyResult where
  success : Bool
  confidence : ℚ
  similarity : ℚ
  threshold : ℚ
deriving Repr, DecidableEq

/-! ## Face verification metrics (face_recognition_service.py lines 248-309) -/

/-- Face: `1 - euclidean_distance / max_possible_distance` with
`max_possible_distance = sqrt(len(new_encoding_array) * 2)` (lines 269-273);
not clamped. -/
def face_distance_similarity (rt : ℚ → ℚ) (a b : List ℚ) : ℚ :=
  1 - rt (sumSq (subV a b)) / rt ((a.length : ℚ) * 2)

/-- Face: `np.corrcoef(...)[0,1]` with nan replaced by `0` (lines 275-278).
The nan case of the float code is exactly a zero denominator. -/
def face_correlation (rt : ℚ → ℚ) (a b : List ℚ) : ℚ :=
  let d : ℚ := (a.length : ℚ) - 1
  if rt (sumSq (centered a) / d) * rt (sumSq (centered b) / d) = 0 then 0
  else corrcoefQ rt a b

/-- Face: `(correlation + 1) / 2` (line 279). -/
def face_correlation_similarity (rt : ℚ → ℚ) (a b : List ℚ) : ℚ :=
  (face_correlation rt a b + 1) / 2

/-- Face combined score, weights 0.5 / 0.3 / 0.2 (lines 283-287). -/
def face_combined (rt : ℚ → ℚ) (a b : List ℚ) : ℚ :=
  1/2 * cosineSim rt a b + 3/10 * face_distance_similarity rt a b
    + 1/5 * face_correlation_similarity rt a b

/-- `verify_face` scoring stage (lines 248-309): truncate both encodings to
the shorter length, combine the three metrics, decide against
`1 - tolerance`, clamp the confidence to [0, 100]. -/
def verify_face (rt : ℚ → ℚ) (new_encoding stored_encoding : List ℚ)
    (tolerance : ℚ) : VerifyResult :=
  let m := min new_encoding.length stored_encoding.length
  let a := new_encoding.take m
  let b := stored_encoding.take m
  let combined := face_combined rt a b
  { success := decide (1 - tolerance ≤ combined)
    confidence := max 0 (min 100 (combined * 100))
    similarity := combined
    threshold := 1 - tolerance }

/-! ## Voice verification metrics (voice_recognition_service.py lines 184-250) -/

/-- Voice cosine similarity, clamped to [0, 1] (lines 192-202). -/
def voice_cosine (rt : ℚ → ℚ) (a b : List ℚ) : ℚ :=
  max 0 (min 1 (cosineSim rt a b))

/-- Voice distance similarity, clamped to [0, 1] (lines 204-209). -/
def voice_distance (rt : ℚ → ℚ) (a b : List ℚ) : ℚ :=
  max 0 (min 1 (1 - rt (sumSq (subV a b)) / rt ((a.length : ℚ) * 2)))

/-- Voice correlation similarity (lines 211-218): computed only when both
`np.std` values are positive (equivalently both centered sums of squares
are positive), nan replaced by 0, then `max(0, (correlation + 1) / 2)`;
zero variance on either side yields 0. -/
def voice_correlation_similarity (rt : ℚ → ℚ) (a b : List ℚ) : ℚ :=
  if 0 < sumSq (centered a) ∧ 0 < sumSq (centered b) then
    let d : ℚ := (a.length : ℚ) - 1
    let c := if rt (sumSq (centered a) / d) * rt (sumSq (centered b) / d) = 0
      then 0 else corrcoefQ rt a b
    max 0 ((c + 1) / 2)
  else 0

/-- Voice combined score, weights 0.6 / 0.25 / 0.15 (lines 222-226). -/
def voice_combined (rt : ℚ → ℚ) (a b : List ℚ) : ℚ :=
  6/10 * voice_cosine rt a b + 25/100 * voice_distance rt a b
    + 15/100 * voice_correlation_similarity rt a b

/-- `verify_voice` scoring stage (lines 184-250): truncate both feature
vectors to the shorter length, combine, decide, clamp confidence. -/
def verify_voice (rt : ℚ → ℚ) (new_features stored_features : List ℚ)
    (tolerance : ℚ) : VerifyResult :=
  let m := min new_features.length stored_features.length
  let a := new_features.take m
  let b := stored_features.take m
  let combined := voice_combined rt a b
  { success := decide (1 - tolerance ≤ combined)
    confidence := max 0 (min 100 (combined * 100))
    similarity := combined
    threshold := 1 - tolerance }

/-! ## Fingerprint verification metrics
(fingerprint_recognition_service.py lines 194-245) -/

/-- Fingerprint distance similarity (lines 212-215); not clamped. -/
def fingerprint_distance (rt : ℚ → ℚ) (a b : List ℚ) : ℚ :=
  1 - rt (sumSq (subV a b)) / rt ((a.length : ℚ) * 2)

/-- Fingerprint correlation (lines 217-221): the RAW `np.corrcoef` value
when both `np.std` values are positive, else 0.  Unlike face and voice it
is NOT remapped to [0, 1]. -/
def fingerprint_correlation (rt : ℚ → ℚ) (a b : List ℚ) : ℚ :=
  if 0 < sumSq (centered a) ∧ 0 < sumSq (centered b) then corrcoefQ rt a b
  else 0

/-- Fingerprint combined score, weights 0.5 / 0.3 / 0.2 (line 224),
before the clamp of line 227. -/
def fingerprint_combined (rt : ℚ → ℚ) (a b : List ℚ) : ℚ :=
  1/2 * cosineSim rt a b + 3/10 * fingerprint_distance rt a b
    + 1/5 * fingerprint_correlation rt a b

/-- `verify_fingerprint` scoring stage (lines 194-245).  The two encodings
are NOT truncated: `np.dot` on two 1-D arrays of different lengths raises,
which the enclosing `except` turns into the `ValueError` of line 248; this
is modelled by the `.error` branch.  On equal lengths: combine, clamp the
similarity to [0, 1] (line 227), decide, confidence = similarity * 100. -/
def verify_fingerprint (rt : ℚ → ℚ) (new_encoding stored_encoding : List ℚ)
    (tolerance : ℚ) : Except String VerifyResult :=
  if new_encoding.length = stored_encoding.length then
    let s := fingerprint_combined rt new_encoding stored_encoding
    let similarity := max 0 (min 1 s)
    .ok { success := decide (1 - tolerance ≤ similarity)
          confidence := similarity * 100
          similarity := similarity
          threshold := 1 - tolerance }
  else
    .error "Fingerprint verification failed: shapes not aligned"

/-! ## Fingerprint capture pipelines
(fingerprint_recognition_service.py lines 143-193).

Image decoding and the minutiae feature extractor work on OpenCV pixel
buffers and are abstracted: only the pixel dimensions (all `np.size`
inspects) and an opaque extraction function `extract` are modelled. -/

/-- A decoded grayscale capture; `size` is `np.ndarray.size` = number of
pixels. -/
structure FpImage where
  rows : Nat
  cols : Nat
deriving Repr, DecidableEq

def FpImage.size (img : FpImage) : Nat := img.rows * img.cols

/-- `enroll_fingerprint` front end (lines 143-169): the undersized-capture
check `image.size < 10000` runs BEFORE feature extraction; the result is
the extracted encoding (serialization and encryption of it are modelled
separately by the cipher layer). -/
def enroll_fingerprint (extract : FpImage → List ℚ) (img : FpImage) :
    Except String (List ℚ) :=
  if img.size < 10000 then
    .error "Fingerprint enrollment failed: Fingerprint image too small. Please capture a clearer image."
  else
    .ok (extract img)

/-- `verify_fingerprint` front end (lines 172-193): the capture is decoded
and passed straight to feature extraction and scoring; there is NO minimum
size check on this path. -/
def verify_fingerprint_capture (rt : ℚ → ℚ) (extract : FpImage → List ℚ)
    (img : FpImage) (stored_encoding : List ℚ) (tolerance : ℚ) :
    Except String VerifyResult :=
  verify_fingerprint rt (extract img) stored_encoding tolerance

/-! ## Byte strings

The cipher layer (`backend/services/encryption_service.py`) works on bytes
and ASCII text; both become `List Nat` with entries < 256 (< 128 for
text), stated as hypotheses where they matter. -/

/-- The bytes of an ASCII string literal. -/
def strBytes (s : String) : List Nat := s.toList.map Char.toNat

/-- Bytewise xor. -/
def xorBytes (a b : List Nat) : List Nat := List.zipWith (fun x y => x ^^^ y) a b

/-- `n` chunks of `k` elements each, by take/drop (structurally recursive
on the chunk count, so concrete computations reduce). -/
def chunksN {α : Type} (k : Nat) : Nat → List α → List (List α)
  | 0, _ => []
  | n + 1, l => l.take k :: chunksN k n (l.drop k)

/-- Split a list whose length is a multiple of 4 into its chunks of 4. -/
def toChunks4 {α : Type} (l : List α) : List (List α) := chunksN 4 (l.length / 4) l

/-- Split a list whose length is a multiple of 16 into its chunks of 16. -/
def toChunks16 {α : Type} (l : List α) : List (List α) := chunksN 16 (l.length / 16) l

/-! ## SHA-256 (the `hashlib.sha256` call of
`EncryptionService._generate_encryption_key`, encryption_service.py lines
27-37), implemented to the FIPS 180-4 specification over `Nat` with
explicit reduction mod 2^32. -/

def mod32 (x : Nat) : Nat := x % 4294967296

def rotr32 (n x : Nat) : Nat := mod32 ((x >>> n) ||| (x <<< (32 - n)))

def shaCh (e f g : Nat) : Nat := (e &&& f) ^^^ ((e ^^^ 4294967295) &&& g)

def shaMaj (a b c : Nat) : Nat := (a &&& b) ^^^ (a &&& c) ^^^ (b &&& c)

def bigSigma0 (x : Nat) : Nat := rotr32 2 x ^^^ rotr32 13 x ^^^ rotr32 22 x

def bigSigma1 (x : Nat) : Nat := rotr32 6 x ^^^ rotr32 11 x ^^^ rotr32 25 x

def smallSigma0 (x : Nat) : Nat := rotr32 7 x ^^^ rotr32 18 x ^^^ (x >>> 3)

def smallSigma1 (x : Nat) : Nat := rotr32 17 x ^^^ rotr32 19 x ^^^ (x >>> 10)

/-- The 64 SHA-256 round constants. -/
def shaK : List Nat :=
  [1116352408, 1899447441, 3049323471, 3921009573, 961987163, 1508970993,
   2453635748, 2870763221, 3624381080, 310598401, 607225278, 1426881987,
   1925078388, 2162078206, 2614888103, 3248222580, 3835390401, 4022224774,
   264347078, 604807628, 770255983, 1249150122, 1555081692, 1996064986,
   2554220882, 2821834349, 2952996808, 3210313671, 3336571891, 3584528711,
   113926993, 338241895, 666307205, 773529912, 1294757372, 1396182291,
   1695183700, 1986661051, 2177026350, 2456956037, 2730485921, 2820302411,
   3259730800, 3345764771, 3516065817, 3600352804, 4094571909, 275423344,
   430227734, 506948616, 659060556, 883997877, 958139571, 1322822218,
   1537002063, 1747873779, 1955562222, 2024104815, 2227730452, 2361852424,
   2428436474, 2756734187, 3204031479, 3329325298]

/-- The eight 32-bit working variables of the compression function. -/
structure Sha8 where
  a : Nat
  b : Nat
  c : Nat
  d : Nat
  e : Nat
  f : Nat
  g : Nat
  h : Nat
deriving Repr, DecidableEq

/-- The SHA-256 initial hash value. -/
def shaH0 : Sha8 :=
  ⟨1779033703, 3144134277, 1013904242, 2773480762,
   1359893119, 2600822924, 528734635, 1541459225⟩

/-- Big-endian 32-bit words from bytes. -/
def wordsBE : List Nat → List Nat
  | b0 :: b1 :: b2 :: b3 :: rest =>
    (b0 * 16777216 + b1 * 65536 + b2 * 256 + b3) :: wordsBE rest
  | _ => []

/-- Big-endian bytes of a 32-bit word. -/
def wordBytesBE (w : Nat) : List Nat :=
  [w / 16777216 % 256, w / 65536 % 256, w / 256 % 256, w % 256]

/-- One step of the message-schedule extension. -/
def shaExtendStep (ws : List Nat) : List Nat :=
  ws ++ [mod32 (smallSigma1 (ws.getD (ws.length - 2) 0) + ws.getD (ws.length - 7) 0
    + smallSigma0 (ws.getD (ws.length - 15) 0) + ws.getD (ws.length - 16) 0)]

/-- One SHA-256 round. -/
def shaRound (s : Sha8) (k w : Nat) : Sha8 :=
  let t1 := mod32 (s.h + bigSigma1 s.e + shaCh s.e s.f s.g + k + w)
  let t2 := mod32 (bigSigma0 s.a + shaMaj s.a s.b s.c)
  ⟨mod32 (t1 + t2), s.a, s.b, s.c, mod32 (s.d + t1), s.e, s.f, s.g⟩

/-- Compression of one block, given as its 16 32-bit words. -/
def shaCompress (hs : Sha8) (block : List Nat) : Sha8 :=
  let ws := shaExtendStep^[48] block
  let st := List.foldl (fun s kw => shaRound s kw.1 kw.2) hs (List.zip shaK ws)
  ⟨mod32 (hs.a + st.a), mod32 (hs.b + st.b), mod32 (hs.c + st.c),
   mod32 (hs.d + st.d), mod32 (hs.e + st.e), mod32 (hs.f + st.f),
   mod32 (hs.g + st.g), mod32 (hs.h + st.h)⟩

/-- The big-endian 8-byte encoding of the 64-bit message bit length. -/
def len64BE (n : Nat) : List Nat :=
  [n / 72057594037927936 % 256, n / 281474976710656 % 256,
   n / 1099511627776 % 256, n / 4294967296 % 256,
   n / 16777216 % 256, n / 65536 % 256, n / 256 % 256, n % 256]

/-- The SHA-256 padding for a message of `len` bytes: 0x80, zeros to 56 mod
64, then the bit length. -/
def shaPadding (len : Nat) : List Nat :=
  128 :: List.replicate ((119 - len % 64) % 64) 0 ++ len64BE (len * 8)

/-- SHA-256 of a byte string (`hashlib.sha256(...).digest()`): pad,
compress each 64-byte block, serialize the final state big-endian. -/
def sha256 (msg : List Nat) : List Nat :=
  let final := (toChunks16 (wordsBE (msg ++ shaPadding msg.length))).foldl
    shaCompress shaH0
  wordBytesBE final.a ++ wordBytesBE final.b ++ wordBytesBE final.c
    ++ wordBytesBE final.d ++ wordBytesBE final.e ++ wordBytesBE final.f
    ++ wordBytesBE final.g ++ wordBytesBE final.h

/-! ## AES-256 (FIPS 197), the block cipher behind the
`Crypto.Cipher.AES` calls of encryption_service.py.  States and keys are
byte lists (block bytes in order, the state matrix column-major as in the
standard). -/

/-- The AES S-box. -/
def sbox : List Nat :=
  [0x63, 0x7c, 0x77, 0x7b, 0xf2, 0x6b, 0x6f, 0xc5, 0x30, 0x01, 0x67, 0x2b, 0xfe, 0xd7, 0xab, 0x76,
   0xca, 0x82, 0xc9, 0x7d, 0xfa, 0x59, 0x47, 0xf0, 0xad, 0xd4, 0xa2, 0xaf, 0x9c, 0xa4, 0x72, 0xc0,
   0xb7, 0xfd, 0x93, 0x26, 0x36, 0x3f, 0xf7, 0xcc, 0x34, 0xa5, 0xe5, 0xf1, 0x71, 0xd8, 0x31, 0x15,
   0x04, 0xc7, 0x23, 0xc3, 0x18, 0x96, 0x05, 0x9a, 0x07, 0x12, 0x80, 0xe2, 0xeb, 0x27, 0xb2, 0x75,
   0x09, 0x83, 0x2c, 0x1a, 0x1b, 0x6e, 0x5a, 0xa0, 0x52, 0x3b, 0xd6, 0xb3, 0x29, 0xe3, 0x2f, 0x84,
   0x53, 0xd1, 0x00, 0xed, 0x20, 0xfc, 0xb1, 0x5b, 0x6a, 0xcb, 0xbe, 0x39, 0x4a, 0x4c, 0x58, 0xcf,
   0xd0, 0xef, 0xaa, 0xfb, 0x43, 0x4d, 0x33, 0x85, 0x45, 0xf9, 0x02, 0x7f, 0x50, 0x3c, 0x9f, 0xa8,
   0x51, 0xa3, 0x40, 0x8f, 0x92, 0x9d, 0x38, 0xf5, 0xbc, 0xb6, 0xda, 0x21, 0x10, 0xff, 0xf3, 0xd2,
   0xcd, 0x0c, 0x13, 0xec, 0x5f, 0x97, 0x44, 0x17, 0xc4, 0xa7, 0x7e, 0x3d, 0x64, 0x5d, 0x19, 0x73,
   0x60, 0x81, 0x4f, 0xdc, 0x22, 0x2a, 0x90, 0x88, 0x46, 0xee, 0xb8, 0x14, 0xde, 0x5e, 0x0b, 0xdb,
   0xe0, 0x32, 0x3a, 0x0a, 0x49, 0x06, 0x24, 0x5c, 0xc2, 0xd3, 0xac, 0x62, 0x91, 0x95, 0xe4, 0x79,
   0xe7, 0xc8, 0x37, 0x6d, 0x8d, 0xd5, 0x4e, 0xa9, 0x6c, 0x56, 0xf4, 0xea, 0x65, 0x7a, 0xae, 0x08,
   0xba, 0x78, 0x25, 0x2e, 0x1c, 0xa6, 0xb4, 0xc6, 0xe8, 0xdd, 0x74, 0x1f, 0x4b, 0xbd, 0x8b, 0x8a,
   0x70, 0x3e, 0xb5, 0x66, 0x48, 0x03, 0xf6, 0x0e, 0x61, 0x35, 0x57, 0xb9, 0x86, 0xc1, 0x1d, 0x9e,
   0xe1, 0xf8, 0x98, 0x11, 0x69, 0xd9, 0x8e, 0x94, 0x9b, 0x1e, 0x87, 0xe9, 0xce, 0x55, 0x28, 0xdf,
   0x8c, 0xa1, 0x89, 0x0d, 0xbf, 0xe6, 0x42, 0x68, 0x41, 0x99, 0x2d, 0x0f, 0xb0, 0x54, 0xbb, 0x16]

/-- The inverse AES S-box. -/
def invSbox : List Nat :=
  [0x52, 0x09, 0x6a, 0xd5, 0x30, 0x36, 0xa5, 0x38, 0xbf, 0x40, 0xa3, 0x9e, 0x81, 0xf3, 0xd7, 0xfb,
   0x7c, 0xe3, 0x39, 0x82, 0x9b, 0x2f, 0xff, 0x87, 0x34, 0x8e, 0x43, 0x44, 0xc4, 0xde, 0xe9, 0xcb,
   0x54, 0x7b, 0x94, 0x32, 0xa6, 0xc2, 0x23, 0x3d, 0xee, 0x4c, 0x95, 0x0b, 0x42, 0xfa, 0xc3, 0x4e,
   0x08, 0x2e, 0xa1, 0x66, 0x28, 0xd9, 0x24, 0xb2, 0x76, 0x5b, 0xa2, 0x49, 0x6d, 0x8b, 0xd1, 0x25,
   0x72, 0xf8, 0xf6, 0x64, 0x86, 0x68, 0x98, 0x16, 0xd4, 0xa4, 0x5c, 0xcc, 0x5d, 0x65, 0xb6, 0x92,
   0x6c, 0x70, 0x48, 0x50, 0xfd, 0xed, 0xb9, 0xda, 0x5e, 0x15, 0x46, 0x57, 0xa7, 0x8d, 0x9d, 0x84,
   0x90, 0xd8, 0xab, 0x00, 0x8c, 0xbc, 0xd3, 0x0a, 0xf7, 0xe4, 0x58, 0x05, 0xb8, 0xb3, 0x45, 0x06,
   0xd0, 0x2c, 0x1e, 0x8f, 0xca, 0x3f, 0x0f, 0x02, 0xc1, 0xaf, 0xbd, 0x03, 0x01, 0x13, 0x8a, 0x6b,
   0x3a, 0x91, 0x11, 0x41, 0x4f, 0x67, 0xdc, 0xea, 0x97, 0xf2, 0xcf, 0xce, 0xf0, 0xb4, 0xe6, 0x73,
   0x96, 0xac, 0x74, 0x22, 0xe7, 0xad, 0x35, 0x85, 0xe2, 0xf9, 0x37, 0xe8, 0x1c, 0x75, 0xdf, 0x6e,
   0x47, 0xf1, 0x1a, 0x71, 0x1d, 0x29, 0xc5, 0x89, 0x6f, 0xb7, 0x62, 0x0e, 0xaa, 0x18, 0xbe, 0x1b,
   0xfc, 0x56, 0x3e, 0x4b, 0xc6, 0xd2, 0x79, 0x20, 0x9a, 0xdb, 0xc0, 0xfe, 0x78, 0xcd, 0x5a, 0xf4,
   0x1f, 0xdd, 0xa8, 0x33, 0x88, 0x07, 0xc7, 0x31, 0xb1, 0x12, 0x10, 0x59, 0x27, 0x80, 0xec, 0x5f,
   0x60, 0x51, 0x7f, 0xa9, 0x19, 0xb5, 0x4a, 0x0d, 0x2d, 0xe5, 0x7a, 0x9f, 0x93, 0xc9, 0x9c, 0xef,
   0xa0, 0xe0, 0x3b, 0x4d, 0xae, 0x2a, 0xf5, 0xb0, 0xc8, 0xeb, 0xbb, 0x3c, 0x83, 0x53, 0x99, 0x61,
   0x17, 0x2b, 0x04, 0x7e, 0xba, 0x77, 0xd6, 0x26, 0xe1, 0x69, 0x14, 0x63, 0x55, 0x21, 0x0c, 0x7d]

def sboxB (b : Nat) : Nat := sbox.getD b 0

def invSboxB (b : Nat) : Nat := invSbox.getD b 0

def subBytes (s : List Nat) : List Nat := s.map sboxB

def invSubBytes (s : List Nat) : List Nat := s.map invSboxB

/-- ShiftRows on the column-major byte list (identity off 16-byte states). -/
def shiftRows (s : List Nat) : List Nat :=
  match s with
  | [a0, a1, a2, a3, a4, a5, a6, a7, a8, a9, a10, a11, a12, a13, a14, a15] =>
    [a0, a5, a10, a15, a4, a9, a14, a3, a8, a13, a2, a7, a12, a1, a6, a11]
  | l => l

/-- InvShiftRows, the inverse byte permutation. -/
def invShiftRows (s : List Nat) : List Nat :=
  match s with
  | [b0, b1, b2, b3, b4, b5, b6, b7, b8, b9, b10, b11, b12, b13, b14, b15] =>
    [b0, b13, b10, b7, b4, b1, b14, b11, b8, b5, b2, b15, b12, b9, b6, b3]
  | l => l

/-- Multiplication by x in GF(2^8) modulo x^8 + x^4 + x^3 + x + 1. -/
def xtime (b : Nat) : Nat := ((2 * b) % 256) ^^^ (if 128 ≤ b then 27 else 0)

/-- GF(2^8) product accumulated over the low `n` bits of `b`. -/
def gmulAux : Nat → Nat → Nat → Nat
  | 0, _, _ => 0
  | n + 1, a, b => (if b % 2 = 1 then a else 0) ^^^ gmulAux n (xtime a) (b / 2)

/-- GF(2^8) multiplication of bytes. -/
def gmul (a b : Nat) : Nat := gmulAux 8 a b

/-- MixColumns on one column (identity off 4-byte columns).  The state
byte is the second `gmul` argument, in which `gmul` is linear. -/
def mixCol : List Nat → List Nat
  | [a, b, c, d] =>
    [gmul 2 a ^^^ gmul 3 b ^^^ c ^^^ d,
     a ^^^ gmul 2 b ^^^ gmul 3 c ^^^ d,
     a ^^^ b ^^^ gmul 2 c ^^^ gmul 3 d,
     gmul 3 a ^^^ b ^^^ c ^^^ gmul 2 d]
  | l => l

/-- InvMixColumns on one column. -/
def invMixCol : List Nat → List Nat
  | [a, b, c, d] =>
    [gmul 14 a ^^^ gmul 11 b ^^^ gmul 13 c ^^^ gmul 9 d,
     gmul 9 a ^^^ gmul 14 b ^^^ gmul 11 c ^^^ gmul 13 d,
     gmul 13 a ^^^ gmul 9 b ^^^ gmul 14 c ^^^ gmul 11 d,
     gmul 11 a ^^^ gmul 13 b ^^^ gmul 9 c ^^^ gmul 14 d]
  | l => l

def mixColumns (s : List Nat) : List Nat := ((toChunks4 s).map mixCol).flatten

def invMixColumns (s : List Nat) : List Nat := ((toChunks4 s).map invMixCol).flatten

/-- Round constants for the AES-256 key schedule. -/
def rconList : List Nat := [1, 2, 4, 8, 16, 32, 64]

def rotWord : List Nat → List Nat
  | [a, b, c, d] => [b, c, d, a]
  | l => l

def subWord (w : List Nat) : List Nat := w.map sboxB

/-- One step of the AES-256 key expansion: append word `i` (i =
current length) to the word list. -/
def ksNext (ws : List (List Nat)) : List (List Nat) :=
  let i := ws.length
  let prev := ws.getD (i - 1) []
  let w8 := ws.getD (i - 8) []
  let t :=
    if i % 8 = 0 then
      xorBytes (subWord (rotWord prev)) [rconList.getD (i / 8 - 1) 0, 0, 0, 0]
    else if i % 8 = 4 then subWord prev
    else prev
  ws ++ [xorBytes w8 t]

/-- The 60 expanded words of the AES-256 key schedule. -/
def keyWords (key : List Nat) : List (List Nat) := ksNext^[52] (toChunks4 key)

/-- The 15 round keys (16 bytes each). -/
def roundKeys (key : List Nat) : List (List Nat) :=
  (toChunks4 (keyWords key)).map List.flatten

/-- The encryption rounds after the initial AddRoundKey: middle rounds for
all but the last round key, then the final (MixColumns-free) round. -/
def aesEncRounds : List (List Nat) → List Nat → List Nat
  | [], s => s
  | [rk], s => xorBytes (shiftRows (subBytes s)) rk
  | rk :: rks, s => aesEncRounds rks (xorBytes (mixColumns (shiftRows (subBytes s))) rk)

/-- AES block encryption. -/
def aesEncryptBlock (key block : List Nat) : List Nat :=
  match roundKeys key with
  | rk0 :: rks => aesEncRounds rks (xorBytes block rk0)
  | [] => block

/-- The matching inverse rounds. -/
def aesDecRounds : List (List Nat) → List Nat → List Nat
  | [], s => s
  | [rk], s => invSubBytes (invShiftRows (xorBytes s rk))
  | rk :: rks, s =>
    invSubBytes (invShiftRows (invMixColumns (xorBytes (aesDecRounds rks s) rk)))

/-- AES block decryption. -/
def aesDecryptBlock (key block : List Nat) : List Nat :=
  match roundKeys key with
  | rk0 :: rks => xorBytes (aesDecRounds rks block) rk0
  | [] => block

/-! ## CBC mode, PKCS#7 padding, base64 and the text framing
(encryption_service.py lines 39-102). -/

/-- CBC encryption block chain: each plaintext block is xored with the
previous ciphertext block (initially the IV) before the block cipher. -/
def cbcEncBlocks (key : List Nat) : List Nat → List (List Nat) → List (List Nat)
  | _, [] => []
  | prev, p :: rest =>
    let c := aesEncryptBlock key (xorBytes p prev)
    c :: cbcEncBlocks key c rest

/-- CBC decryption block chain. -/
def cbcDecBlocks (key : List Nat) : List Nat → List (List Nat) → List (List Nat)
  | _, [] => []
  | prev, c :: rest => xorBytes (aesDecryptBlock key c) prev :: cbcDecBlocks key c rest

/-- `cipher.encrypt` of a full CBC payload (a multiple of 16 bytes). -/
def cbcEncrypt (key iv data : List Nat) : List Nat :=
  (cbcEncBlocks key iv (toChunks16 data)).flatten

/-- `AES.new(key, MODE_CBC, iv)` then `cipher.decrypt`: the library rejects
an IV that is not 16 bytes and a ciphertext that is not a multiple of the
block size. -/
def cbcDecrypt (key iv ct : List Nat) : Except String (List Nat) :=
  if iv.length ≠ 16 then .error "Incorrect IV length (it must be 16 bytes long)"
  else if ct.length % 16 ≠ 0 then
    .error "Data must be padded to 16 byte boundary in CBC mode"
  else .ok ((cbcDecBlocks key iv (toChunks16 ct)).flatten)

/-- `Crypto.Util.Padding.pad(data, 16)` (PKCS#7): append n copies of n,
n = 16 - len mod 16. -/
def pkcs7Pad (data : List Nat) : List Nat :=
  let n := 16 - data.length % 16
  data ++ List.replicate n n

/-- `Crypto.Util.Padding.unpad(data, 16)` (PKCS#7). -/
def pkcs7Unpad (data : List Nat) : Except String (List Nat) :=
  if data.length = 0 then .error "Zero-length input cannot be unpadded"
  else if data.length % 16 ≠ 0 then .error "Input data is not padded"
  else
    let n := data.getLastD 0
    if n < 1 ∨ min 16 data.length < n then .error "Padding is incorrect."
    else if data.drop (data.length - n) ≠ List.replicate n n then
      .error "PKCS#7 padding is incorrect."
    else .ok (data.take (data.length - n))

/-- The value of a base64 alphabet character. -/
def b64Val (c : Nat) : Option Nat :=
  if 65 ≤ c ∧ c ≤ 90 then some (c - 65)
  else if 97 ≤ c ∧ c ≤ 122 then some (c - 97 + 26)
  else if 48 ≤ c ∧ c ≤ 57 then some (c - 48 + 52)
  else if c = 43 then some 62
  else if c = 47 then some 63
  else none

def isB64Char (c : Nat) : Bool := (b64Val c).isSome

/-- The base64 alphabet, for encoding. -/
def b64Table : List Nat :=
  strBytes "ABCDEFGHIJKLMNOPQRSTUVWXYZabcdefghijklmnopqrstuvwxyz0123456789+/"

def b64Char (i : Nat) : Nat := b64Table.getD i 0

/-- `base64.b64encode`: 3 bytes to 4 characters, trailing 1 or 2 bytes
padded with `=` (61). -/
def b64encode : List Nat → List Nat
  | a :: b :: c :: rest =>
    b64Char (a / 4) :: b64Char ((a % 4) * 16 + b / 16)
      :: b64Char ((b % 16) * 4 + c / 64) :: b64Char (c % 64) :: b64encode rest
  | [a, b] => [b64Char (a / 4), b64Char ((a % 4) * 16 + b / 16), b64Char ((b % 16) * 4), 61]
  | [a] => [b64Char (a / 4), b64Char ((a % 4) * 16), 61, 61]
  | [] => []

/-- Decode a stream of base64 quads, `=`-padding allowed in the final
quad; anything else (a dangling group, a stray character) is an error, as
in `binascii.a2b_base64`. -/
def b64decodeQuads : List Nat → Except String (List Nat)
  | [] => .ok []
  | c1 :: c2 :: c3 :: c4 :: rest =>
    if c4 = 61 ∧ rest = [] then
      if c3 = 61 then
        match b64Val c1, b64Val c2 with
        | some s1, some s2 => .ok [s1 * 4 + s2 / 16]
        | _, _ => .error "Invalid base64-encoded string"
      else
        match b64Val c1, b64Val c2, b64Val c3 with
        | some s1, some s2, some s3 =>
          .ok [s1 * 4 + s2 / 16, (s2 % 16) * 16 + s3 / 4]
        | _, _, _ => .error "Invalid base64-encoded string"
    else
      match b64Val c1, b64Val c2, b64Val c3, b64Val c4 with
      | some s1, some s2, some s3, some s4 =>
        (b64decodeQuads rest).map
          (fun t => (s1 * 4 + s2 / 16) :: ((s2 % 16) * 16 + s3 / 4)
            :: ((s3 % 4) * 64 + s4) :: t)
      | _, _, _, _ => .error "Invalid base64-encoded string"
  | _ => .error "Incorrect padding"

/-- `base64.b64decode(s)` with default validation: characters outside the
alphabet (and misplaced padding handling aside) are discarded before
decoding; a leftover partial quad is a padding error. -/
def b64decode (s : List Nat) : Except String (List Nat) :=
  b64decodeQuads (s.filter (fun c => isB64Char c || c == 61))

/-- Python `str.strip()`: whitespace removed from both ends. -/
def wsChars : List Nat := [32, 9, 10, 13, 11, 12]

def pyStrip (s : List Nat) : List Nat :=
  ((s.dropWhile (fun c => wsChars.contains c)).reverse.dropWhile
    (fun c => wsChars.contains c)).reverse

/-- Python `str.split(chr(10))`. -/
def splitNl : List Nat → List (List Nat)
  | [] => [[]]
  | c :: rest =>
    if c = 10 then [] :: splitNl rest
    else
      match splitNl rest with
      | l :: ls => (c :: l) :: ls
      | [] => [[c]]

/-- Validity of a byte string as UTF-8 (RFC 3629 table): exactly the byte
strings Python `bytes.decode("utf-8")` accepts.  A Python `str` is modelled
throughout by its UTF-8 byte encoding, under which `encode`/`decode` are
mutually inverse bijections. -/
def utf8Valid : List Nat → Bool
  | [] => true
  | c :: rest =>
    if c < 128 then utf8Valid rest
    else if c < 194 then false
    else if c < 224 then
      match rest with
      | c1 :: rest2 => decide (128 ≤ c1) && decide (c1 ≤ 191) && utf8Valid rest2
      | [] => false
    else if c < 240 then
      match rest with
      | c1 :: c2 :: rest2 =>
        decide ((if c = 224 then 160 else 128) ≤ c1)
          && decide (c1 ≤ if c = 237 then 159 else 191)
          && decide (128 ≤ c2) && decide (c2 ≤ 191) && utf8Valid rest2
      | _ => false
    else if c < 245 then
      match rest with
      | c1 :: c2 :: c3 :: rest2 =>
        decide ((if c = 240 then 144 else 128) ≤ c1)
          && decide (c1 ≤ if c = 244 then 143 else 191)
          && decide (128 ≤ c2) && decide (c2 ≤ 191)
          && decide (128 ≤ c3) && decide (c3 ≤ 191) && utf8Valid rest2
      | _ => false
    else false

/-! ## The encryption service (encryption_service.py)

`EncryptionService.__init__` stores the password and the salt (config
defaults when not given) and derives the key; `_generate_encryption_key`
(lines 27-37) hashes ONLY the password with SHA-256. -/

/-- config.py default `BIOMETRIC_ENCRYPTION_KEY`, as bytes. -/
def BIOMETRIC_ENCRYPTION_KEY : List Nat :=
  strBytes "your-biometric-encryption-key-change-in-production"

/-- config.py default `BIOMETRIC_ENCRYPTION_SALT`, as bytes. -/
def BIOMETRIC_ENCRYPTION_SALT : List Nat :=
  strBytes "biometric-salt-change-in-production"

/-- The encryption service state after `__init__(password, salt)`. -/
structure EncryptionService where
  password : List Nat
  salt : List Nat
deriving Repr, DecidableEq

/-- `__init__` with optional arguments: falsy (absent) password or salt
falls back to the config defaults. -/
def EncryptionService.ofParams (password salt : Option (List Nat)) :
    EncryptionService :=
  { password := password.getD BIOMETRIC_ENCRYPTION_KEY
    salt := salt.getD BIOMETRIC_ENCRYPTION_SALT }

/-- `_generate_encryption_key` (lines 27-37): `hashlib.sha256(self.password)`.
The stored salt does not enter the digest. -/
def EncryptionService.generate_encryption_key (s : EncryptionService) : List Nat :=
  sha256 s.password

/-- The derived key attribute set by `__init__`. -/
def EncryptionService.encryption_key (s : EncryptionService) : List Nat :=
  s.generate_encryption_key

/-- `EncryptionService.encrypt` (lines 39-69): UTF-8 encode (strings are
modelled by their UTF-8 bytes, so this is the identity), pad, CBC-encrypt
under a fresh random IV — passed here as the explicit argument `iv` —
and return base64(iv), a newline, base64(ciphertext). -/
def EncryptionService.encrypt (s : EncryptionService) (iv data : List Nat) :
    List Nat :=
  b64encode iv ++ 10 :: b64encode (cbcEncrypt s.encryption_key iv (pkcs7Pad data))

/-- `EncryptionService.decrypt` (lines 71-102): strip, split on the
newline into exactly two lines, base64-decode each, CBC-decrypt, unpad,
UTF-8-decode.  Every failure is surfaced as the single
`ValueError("Failed to decrypt data: ...")`, here the `.error` case. -/
def EncryptionService.decrypt (s : EncryptionService) (encrypted_data : List Nat) :
    Except String (List Nat) :=
  match splitNl (pyStrip encrypted_data) with
  | [l1, l2] =>
    match b64decode l1, b64decode l2 with
    | .ok iv, .ok ct =>
      match cbcDecrypt s.encryption_key iv ct with
      | .ok padded =>
        match pkcs7Unpad padded with
        | .ok pt =>
          if utf8Valid pt then .ok pt
          else .error "Failed to decrypt data: invalid utf-8"
        | .error e => .error ("Failed to decrypt data: " ++ e)
      | .error e => .error ("Failed to decrypt data: " ++ e)
    | _, _ => .error "Failed to decrypt data: invalid base64"
  | _ => .error "Failed to decrypt data: Invalid encrypted data format"

/-- The control flow of `verify_face` (face_recognition_service.py lines
243-312) around the stored template: decrypt failure propagates as the
re-raised ValueError and no decision is made; decrypt success hands the
decrypted template to the scoring/decision stage (abstracted as
`decision`). -/
def verify_face_outcome {α : Type} (s : EncryptionService) (blob : List Nat)
    (decision : List Nat → α) : Except String α :=
  match s.decrypt blob with
  | .error e => .error ("Face verification failed: " ++ e)
  | .ok template => .ok (decision template)

/-! ## Template manager endpoints (backend/main.py)

The FastAPI endpoints `verify_biometric` (lines 219-313) and
`toggle_biometric` (lines 316-340).  The database table `biometric_data`
(models.py) becomes a list of rows; `query(...).filter(...).first()`
becomes `List.find?`.  The modality services and token minting are outward
collaborators here and are passed in as opaque functions, so that
invocation (or non-invocation) of an extractor is observable as
(in)dependence of the result on them. -/

/-- A row of the `biometric_data` table (models.py lines 20-32). -/
structure BiometricRow where
  user_id : Nat
  biometric_type : String
  is_enrolled : Bool
  enrollment_data : Option String
deriving Repr, DecidableEq

/-- The `BiometricResponse` schema: success flag, message, optional fresh
token. -/
structure BiometricResponse where
  success : Bool
  message : String
  token : Option String
deriving Repr, DecidableEq

/-- FastAPI `HTTPException`s raised by the endpoints. -/
inductive HttpError where
  | badRequest (detail : String)
  | notFound (detail : String)
deriving Repr, DecidableEq

/-- Python `str.capitalize()`: first character upper-cased, the rest
lower-cased. -/
def pyCapitalize (s : String) : String :=
  match s.toList with
  | [] => ""
  | c :: rest => String.mk (c.toUpper :: rest.map Char.toLower)

/-- The row lookup of main.py lines 226-229 / 322-325:
`filter(user_id == ..., biometric_type == ...).first()`. -/
def findBiometric (db : List BiometricRow) (uid : Nat) (btype : String) :
    Option BiometricRow :=
  db.find? (fun r => r.user_id == uid && r.biometric_type == btype)

/-- `verify_biometric` (main.py lines 219-313).

`faceH` / `voiceH` stand for `face_service.verify_face` /
`voice_service.verify_voice` applied to the posted sample and the stored
encrypted template (each may raise `ValueError`, the `.error` case);
`mint` is the token produced by `create_access_token`; `fmt` renders a
confidence for the `:.1f` interpolation.  The not-enrolled short circuit
of lines 231-235 runs before any modality dispatch. -/
def verify_biometric (fmt : ℚ → String) (mint : String)
    (faceH voiceH : String → Option String → Except String VerifyResult)
    (db : List BiometricRow) (uid : Nat) (btype : String)
    (vdata : Option String) : Except HttpError BiometricResponse :=
  match findBiometric db uid btype with
  | none => .ok ⟨false, pyCapitalize btype ++ " biometric not enrolled", none⟩
  | some biometric =>
    if !biometric.is_enrolled then
      .ok ⟨false, pyCapitalize btype ++ " biometric not enrolled", none⟩
    else if btype = "face" then
      match vdata with
      | none => .error (.badRequest "Face image data is required for verification")
      | some v =>
        match faceH v biometric.enrollment_data with
        | .error e => .error (.badRequest e)
        | .ok result =>
          if result.success then
            .ok ⟨true, "Face verification successful (confidence: "
                  ++ fmt result.confidence ++ "%)", some mint⟩
          else
            .ok ⟨false, "Face verification failed (confidence: "
                  ++ fmt result.confidence ++ "%)", none⟩
    else if btype = "voice" then
      match vdata with
      | none => .error (.badRequest "Voice audio data is required for verification")
      | some v =>
        match voiceH v biometric.enrollment_data with
        | .error e => .error (.badRequest e)
        | .ok result =>
          if result.success then
            .ok ⟨true, "Voice verification successful (confidence: "
                  ++ fmt result.confidence ++ "%)", some mint⟩
          else
            .ok ⟨false, "Voice verification failed (confidence: "
                  ++ fmt result.confidence ++ "%)", none⟩
    else
      .ok ⟨true, pyCapitalize btype ++ " verification successful", some mint⟩

/-- Update the first row matched by `p` (the ORM mutation
`existing.is_enrolled = ...; db.commit()` touches exactly the row the
`.first()` query returned). -/
def updateFirst (p : BiometricRow → Bool) (f : BiometricRow → BiometricRow) :
    List BiometricRow → List BiometricRow
  | [] => []
  | r :: rest => if p r then f r :: rest else r :: updateFirst p f rest

/-- `toggle_biometric` (main.py lines 316-340): 404 when no row exists,
otherwise set `is_enrolled := enabled` on the found row, leaving
`enrollment_data` and every other row untouched. -/
def toggle_biometric (db : List BiometricRow) (uid : Nat) (btype : String)
    (enabled : Bool) : Except HttpError (List BiometricRow × BiometricResponse) :=
  match findBiometric db uid btype with
  | none => .error (.notFound (pyCapitalize btype ++ " biometric not found"))
  | some _ =>
    .ok (updateFirst (fun r => r.user_id == uid && r.biometric_type == btype)
           (fun r => { r with is_enrolled := enabled }) db,
         ⟨true, pyCapitalize btype ++ " biometric "
            ++ (if enabled then "enabled" else "disabled"), none⟩)

/-! ## Helper lemmas -/

/-- All entries are bytes. -/
abbrev BytesOk (l : List Nat) : Prop := ∀ x ∈ l, x < 256

/-- A 16-byte cipher block. -/
abbrev BlockOk (b : List Nat) : Prop := b.length = 16 ∧ BytesOk b

/-- A list of well-formed round keys. -/
abbrev RksOk (rks : List (List Nat)) : Prop := ∀ rk ∈ rks, BlockOk rk

theorem xorBytes_length (a b : List Nat) :
    (xorBytes a b).length = min a.length b.length := by
  simp [xorBytes]

theorem xorBytes_bytesOk {a b : List Nat} (ha : BytesOk a) (hb : BytesOk b) :
    BytesOk (xorBytes a b) := by
  induction a generalizing b with
  | nil => intro x hx; simp [xorBytes] at hx
  | cons x xs ih =>
    intro y hy
    cases b with
    | nil => simp [xorBytes] at hy
    | cons z zs =>
      simp only [xorBytes, List.zipWith_cons_cons, List.mem_cons] at hy
      rcases hy with hy | hy
      · subst hy
        exact Nat.xor_lt_two_pow (n := 8) (ha x (by simp)) (hb z (by simp))
      · exact ih (fun u hu => ha u (by simp [hu]))
          (fun u hu => hb u (by simp [hu])) y hy

theorem xorBytes_cancel : ∀ (a k : List Nat), a.length = k.length →
    xorBytes (xorBytes a k) k = a := by
  intro a
  induction a with
  | nil => intro k _; simp [xorBytes]
  | cons x xs ih =>
    intro k hk
    cases k with
    | nil => simp at hk
    | cons z zs =>
      simp only [xorBytes, List.zipWith_cons_cons, List.cons.injEq]
      refine ⟨Nat.xor_cancel_right z x, ?_⟩
      exact ih zs (by simpa using hk)

theorem xorBytes_assoc : ∀ (a b c : List Nat),
    xorBytes (xorBytes a b) c = xorBytes a (xorBytes b c) := by
  intro a
  induction a with
  | nil => intro b c; simp [xorBytes]
  | cons x xs ih =>
    intro b c
    cases b with
    | nil => simp [xorBytes]
    | cons y ys =>
      cases c with
      | nil => simp [xorBytes]
      | cons z zs =>
        simp only [xorBytes, List.zipWith_cons_cons, List.cons.injEq]
        exact ⟨Nat.xor_assoc x y z, ih ys zs⟩

theorem xorBytes_zero : ∀ (a : List Nat) (n : Nat),
    xorBytes a (List.replicate n 0) = a.take n := by
  intro a
  induction a with
  | nil => intro n; simp [xorBytes]
  | cons x xs ih =>
    intro n
    cases n with
    | zero => simp [xorBytes]
    | succ m =>
      simp only [List.replicate_succ, xorBytes, List.zipWith_cons_cons, List.take_succ_cons]
      rw [Nat.xor_zero]
      exact congrArg (x :: ·) (ih m)

theorem chunksN_flatten {α : Type} (k : Nat) :
    ∀ (n : Nat) (l : List α), l.length = k * n → (chunksN k n l).flatten = l := by
  intro n
  induction n with
  | zero =>
    intro l hl
    simp at hl
    simp [chunksN, hl]
  | succ m ih =>
    intro l hl
    simp only [chunksN, List.flatten_cons]
    rw [ih (l.drop k) (by rw [List.length_drop, hl, Nat.mul_succ]; omega)]
    exact List.take_append_drop k l

theorem chunksN_mem {α : Type} (k : Nat) :
    ∀ (n : Nat) (l : List α), l.length = k * n →
      ∀ b ∈ chunksN k n l, b.length = k ∧ ∀ x ∈ b, x ∈ l := by
  intro n
  induction n with
  | zero => intro l _ b hb; simp [chunksN] at hb
  | succ m ih =>
    intro l hl b hb
    simp only [chunksN, List.mem_cons] at hb
    rcases hb with hb | hb
    · subst hb
      refine ⟨by rw [List.length_take, hl, Nat.mul_succ]; omega,
        fun x hx => List.mem_of_mem_take hx⟩
    · have := ih (l.drop k) (by rw [List.length_drop, hl, Nat.mul_succ]; omega) b hb
      exact ⟨this.1, fun x hx => List.mem_of_mem_drop (this.2 x hx)⟩

theorem chunksN_of_blocks {α : Type} (k : Nat) :
    ∀ bs : List (List α), (∀ b ∈ bs, b.length = k) →
      chunksN k bs.length bs.flatten = bs := by
  intro bs
  induction bs with
  | nil => intro _; simp [chunksN]
  | cons b rest ih =>
    intro hb
    have hbl : b.length = k := hb b (by simp)
    simp only [List.length_cons, List.flatten_cons, chunksN]
    rw [List.take_left' hbl, List.drop_left' hbl,
      ih (fun c hc => hb c (by simp [hc]))]

theorem toChunks16_flatten (l : List Nat) (h : l.length % 16 = 0) :
    (toChunks16 l).flatten = l :=
  chunksN_flatten 16 (l.length / 16) l (by omega)

theorem toChunks4_flatten {α : Type} (l : List α) (h : l.length % 4 = 0) :
    (toChunks4 l).flatten = l :=
  chunksN_flatten 4 (l.length / 4) l (by omega)

theorem natXor_left_comm (a b c : Nat) : a ^^^ (b ^^^ c) = b ^^^ (a ^^^ c) := by
  rw [← Nat.xor_assoc, Nat.xor_comm a b, Nat.xor_assoc]

theorem xtime_lt (b : Nat) : xtime b < 256 := by
  unfold xtime
  refine Nat.xor_lt_two_pow (n := 8) (Nat.mod_lt _ (by norm_num)) ?_
  split <;> norm_num

theorem gmulAux_lt : ∀ (n a b : Nat), a < 256 → gmulAux n a b < 256
  | 0, _, _, _ => by simp [gmulAux]
  | n + 1, a, b, ha => by
    simp only [gmulAux]
    refine Nat.xor_lt_two_pow (n := 8) ?_ (gmulAux_lt n (xtime a) (b / 2) (xtime_lt a))
    split
    · exact ha
    · norm_num

theorem gmul_lt (a b : Nat) (ha : a < 256) : gmul a b < 256 := gmulAux_lt 8 a b ha

/-- `gmul` is linear over xor in its second argument. -/
theorem gmulAux_xor : ∀ (n a x y : Nat),
    gmulAux n a (x ^^^ y) = gmulAux n a x ^^^ gmulAux n a y := by
  intro n
  induction n with
  | zero => intro a x y; simp [gmulAux]
  | succ m ih =>
    intro a x y
    simp only [gmulAux]
    rw [Nat.xor_div_two, ih]
    have hm : (x ^^^ y) % 2 = (x + y) % 2 := Nat.xor_mod_two_eq
    rcases Nat.mod_two_eq_zero_or_one x with hx | hx <;>
      rcases Nat.mod_two_eq_zero_or_one y with hy | hy <;>
      · have hxy : (x ^^^ y) % 2 = (x % 2 + y % 2) % 2 := by rw [hm, Nat.add_mod]
        rw [hx, hy] at hxy
        norm_num at hxy
        simp [hx, hy, hxy, Nat.xor_assoc, natXor_left_comm, Nat.xor_cancel_left]

theorem gmul_xor (a x y : Nat) : gmul a (x ^^^ y) = gmul a x ^^^ gmul a y :=
  gmulAux_xor 8 a x y

set_option maxRecDepth 8000 in
/-- The InvMixColumns matrix sends each generator column of the
MixColumns matrix to the matching unit vector (checked over all 256
bytes). -/
theorem invMixCol_genA : ∀ x < 256,
    invMixCol [gmul 2 x, x, x, gmul 3 x] = [x, 0, 0, 0] := by decide

set_option maxRecDepth 8000 in
theorem invMixCol_genB : ∀ x < 256,
    invMixCol [gmul 3 x, gmul 2 x, x, x] = [0, x, 0, 0] := by decide

set_option maxRecDepth 8000 in
theorem invMixCol_genC : ∀ x < 256,
    invMixCol [x, gmul 3 x, gmul 2 x, x] = [0, 0, x, 0] := by decide

set_option maxRecDepth 8000 in
theorem invMixCol_genD : ∀ x < 256,
    invMixCol [x, x, gmul 3 x, gmul 2 x] = [0, 0, 0, x] := by decide

/-- A MixColumns column is the xor of the four generator columns. -/
theorem mixCol_decomp (a b c d : Nat) :
    mixCol [a, b, c, d] =
      xorBytes (xorBytes [gmul 2 a, a, a, gmul 3 a] [gmul 3 b, gmul 2 b, b, b])
        (xorBytes [c, gmul 3 c, gmul 2 c, c] [d, d, gmul 3 d, gmul 2 d]) := by
  simp [mixCol, xorBytes, Nat.xor_assoc]

/-- InvMixColumns is linear over bytewise xor on columns. -/
theorem invMixCol_xor4 (u v : List Nat) (hu : u.length = 4) (hv : v.length = 4) :
    invMixCol (xorBytes u v) = xorBytes (invMixCol u) (invMixCol v) := by
  rcases u with _ | ⟨u0, _ | ⟨u1, _ | ⟨u2, _ | ⟨u3, _ | ⟨u4, us⟩⟩⟩⟩⟩ <;> simp at hu
  rcases v with _ | ⟨v0, _ | ⟨v1, _ | ⟨v2, _ | ⟨v3, _ | ⟨v4, vs⟩⟩⟩⟩⟩ <;> simp at hv
  simp [invMixCol, xorBytes, gmul_xor, Nat.xor_assoc, natXor_left_comm]

theorem invMixCol_mixCol (a b c d : Nat)
    (ha : a < 256) (hb : b < 256) (hc : c < 256) (hd : d < 256) :
    invMixCol (mixCol [a, b, c, d]) = [a, b, c, d] := by
  rw [mixCol_decomp,
    invMixCol_xor4 _ _ (by simp [xorBytes]) (by simp [xorBytes]),
    invMixCol_xor4 _ _ (by simp [xorBytes]) (by simp [xorBytes]),
    invMixCol_xor4 _ _ (by simp [xorBytes]) (by simp [xorBytes]),
    invMixCol_genA a ha, invMixCol_genB b hb, invMixCol_genC c hc,
    invMixCol_genD d hd]
  simp [xorBytes]

set_option maxRecDepth 8000 in
theorem sboxB_lt_ball : ∀ b < 256, sboxB b < 256 := by decide

set_option maxRecDepth 8000 in
/-- The inverse S-box inverts the S-box on every byte. -/
theorem invSbox_sbox : ∀ b < 256, invSboxB (sboxB b) = b := by decide

set_option maxRecDepth 8000 in
theorem sboxB_lt (b : Nat) : sboxB b < 256 := by
  by_cases h : b < 256
  · exact sboxB_lt_ball b h
  · unfold sboxB
    rw [List.getD_eq_default]
    · norm_num
    · rw [show sbox.length = 256 from rfl]
      omega

theorem subBytes_length (s : List Nat) : (subBytes s).length = s.length := by
  simp [subBytes]

theorem subBytes_bytesOk (s : List Nat) : BytesOk (subBytes s) := by
  intro x hx
  simp only [subBytes, List.mem_map] at hx
  obtain ⟨y, _, rfl⟩ := hx
  exact sboxB_lt y

theorem invSubBytes_subBytes (s : List Nat) (h : BytesOk s) :
    invSubBytes (subBytes s) = s := by
  induction s with
  | nil => rfl
  | cons x xs ih =>
    have h1 : invSboxB (sboxB x) = x := invSbox_sbox x (h x (by simp))
    have h2 := ih (fun u hu => h u (by simp [hu]))
    simp only [subBytes, List.map_cons, invSubBytes] at h2 ⊢
    rw [List.cons.injEq]
    exact ⟨h1, h2⟩

theorem invShiftRows_shiftRows (s : List Nat) : invShiftRows (shiftRows s) = s := by
  match s with
  | [] => rfl
  | [a0] => rfl
  | [a0, a1] => rfl
  | [a0, a1, a2] => rfl
  | [a0, a1, a2, a3] => rfl
  | [a0, a1, a2, a3, a4] => rfl
  | [a0, a1, a2, a3, a4, a5] => rfl
  | [a0, a1, a2, a3, a4, a5, a6] => rfl
  | [a0, a1, a2, a3, a4, a5, a6, a7] => rfl
  | [a0, a1, a2, a3, a4, a5, a6, a7, a8] => rfl
  | [a0, a1, a2, a3, a4, a5, a6, a7, a8, a9] => rfl
  | [a0, a1, a2, a3, a4, a5, a6, a7, a8, a9, a10] => rfl
  | [a0, a1, a2, a3, a4, a5, a6, a7, a8, a9, a10, a11] => rfl
  | [a0, a1, a2, a3, a4, a5, a6, a7, a8, a9, a10, a11, a12] => rfl
  | [a0, a1, a2, a3, a4, a5, a6, a7, a8, a9, a10, a11, a12, a13] => rfl
  | [a0, a1, a2, a3, a4, a5, a6, a7, a8, a9, a10, a11, a12, a13, a14] => rfl
  | [a0, a1, a2, a3, a4, a5, a6, a7, a8, a9, a10, a11, a12, a13, a14, a15] => rfl
  | a0 :: a1 :: a2 :: a3 :: a4 :: a5 :: a6 :: a7 :: a8 :: a9 :: a10 :: a11 :: a12 :: a13 :: a14 :: a15 :: a16 :: rest => rfl

theorem shiftRows_length (s : List Nat) : (shiftRows s).length = s.length := by
  match s with
  | [] => rfl
  | [a0] => rfl
  | [a0, a1] => rfl
  | [a0, a1, a2] => rfl
  | [a0, a1, a2, a3] => rfl
  | [a0, a1, a2, a3, a4] => rfl
  | [a0, a1, a2, a3, a4, a5] => rfl
  | [a0, a1, a2, a3, a4, a5, a6] => rfl
  | [a0, a1, a2, a3, a4, a5, a6, a7] => rfl
  | [a0, a1, a2, a3, a4, a5, a6, a7, a8] => rfl
  | [a0, a1, a2, a3, a4, a5, a6, a7, a8, a9] => rfl
  | [a0, a1, a2, a3, a4, a5, a6, a7, a8, a9, a10] => rfl
  | [a0, a1, a2, a3, a4, a5, a6, a7, a8, a9, a10, a11] => rfl
  | [a0, a1, a2, a3, a4, a5, a6, a7, a8, a9, a10, a11, a12] => rfl
  | [a0, a1, a2, a3, a4, a5, a6, a7, a8, a9, a10, a11, a12, a13] => rfl
  | [a0, a1, a2, a3, a4, a5, a6, a7, a8, a9, a10, a11, a12, a13, a14] => rfl
  | [a0, a1, a2, a3, a4, a5, a6, a7, a8, a9, a10, a11, a12, a13, a14, a15] => rfl
  | a0 :: a1 :: a2 :: a3 :: a4 :: a5 :: a6 :: a7 :: a8 :: a9 :: a10 :: a11 :: a12 :: a13 :: a14 :: a15 :: a16 :: rest => rfl

theorem shiftRows_bytesOk (s : List Nat) (h : BytesOk s) : BytesOk (shiftRows s) := by
  match s, h with
  | [], h => exact h
  | [a0], h => exact h
  | [a0, a1], h => exact h
  | [a0, a1, a2], h => exact h
  | [a0, a1, a2, a3], h => exact h
  | [a0, a1, a2, a3, a4], h => exact h
  | [a0, a1, a2, a3, a4, a5], h => exact h
  | [a0, a1, a2, a3, a4, a5, a6], h => exact h
  | [a0, a1, a2, a3, a4, a5, a6, a7], h => exact h
  | [a0, a1, a2, a3, a4, a5, a6, a7, a8], h => exact h
  | [a0, a1, a2, a3, a4, a5, a6, a7, a8, a9], h => exact h
  | [a0, a1, a2, a3, a4, a5, a6, a7, a8, a9, a10], h => exact h
  | [a0, a1, a2, a3, a4, a5, a6, a7, a8, a9, a10, a11], h => exact h
  | [a0, a1, a2, a3, a4, a5, a6, a7, a8, a9, a10, a11, a12], h => exact h
  | [a0, a1, a2, a3, a4, a5, a6, a7, a8, a9, a10, a11, a12, a13], h => exact h
  | [a0, a1, a2, a3, a4, a5, a6, a7, a8, a9, a10, a11, a12, a13, a14], h => exact h
  | [a0, a1, a2, a3, a4, a5, a6, a7, a8, a9, a10, a11, a12, a13, a14, a15], h =>
    intro x hx
    apply h
    simp only [shiftRows, List.mem_cons, List.not_mem_nil, or_false] at hx ⊢
    tauto
  | a0 :: a1 :: a2 :: a3 :: a4 :: a5 :: a6 :: a7 :: a8 :: a9 :: a10 :: a11 :: a12 :: a13 :: a14 :: a15 :: a16 :: rest, h => exact h

theorem mixCol_length (c : List Nat) (h : c.length = 4) : (mixCol c).length = 4 := by
  rcases c with _ | ⟨a, _ | ⟨b, _ | ⟨u, _ | ⟨d, _ | ⟨e, es⟩⟩⟩⟩⟩ <;> simp_all [mixCol]

theorem mixCol_bytesOk (c : List Nat) (h : c.length = 4) (hb : BytesOk c) :
    BytesOk (mixCol c) := by
  rcases c with _ | ⟨a, _ | ⟨b, _ | ⟨u, _ | ⟨d, _ | ⟨e, es⟩⟩⟩⟩⟩ <;> simp at h
  have ha := hb a (by simp)
  have hbb := hb b (by simp)
  have hu := hb u (by simp)
  have hd := hb d (by simp)
  intro x hx
  simp only [mixCol, List.mem_cons, List.not_mem_nil, or_false] at hx
  have g2 : ∀ y : Nat, gmul 2 y < 256 := fun y => gmul_lt 2 y (by norm_num)
  have g3 : ∀ y : Nat, gmul 3 y < 256 := fun y => gmul_lt 3 y (by norm_num)
  rcases hx with rfl | rfl | rfl | rfl <;>
    exact Nat.xor_lt_two_pow (n := 8)
      (Nat.xor_lt_two_pow (Nat.xor_lt_two_pow (by first | exact g2 _ | exact g3 _ | assumption)
        (by first | exact g2 _ | exact g3 _ | assumption))
        (by first | exact g2 _ | exact g3 _ | assumption))
      (by first | exact g2 _ | exact g3 _ | assumption)

theorem flatten_length_const {α : Type} (k : Nat) :
    ∀ ls : List (List α), (∀ b ∈ ls, b.length = k) →
      ls.flatten.length = k * ls.length := by
  intro ls
  induction ls with
  | nil => intro _; simp
  | cons b rest ih =>
    intro h
    simp only [List.flatten_cons, List.length_append, List.length_cons,
      h b (by simp), ih (fun c hc => h c (by simp [hc]))]
    ring

theorem chunksN_length {α : Type} (k : Nat) :
    ∀ (n : Nat) (l : List α), (chunksN k n l).length = n := by
  intro n
  induction n with
  | zero => intro l; rfl
  | succ m ih => intro l; simp [chunksN, ih]

theorem mixColumns_length (s : List Nat) (h : s.length = 16) :
    (mixColumns s).length = 16 := by
  have hch : toChunks4 s = chunksN 4 4 s := by rw [toChunks4, h]
  have hmem := chunksN_mem 4 4 s (by omega)
  rw [mixColumns, hch]
  rw [flatten_length_const 4]
  · simp [chunksN_length]
  · intro b hb
    simp only [List.mem_map] at hb
    obtain ⟨c, hc, rfl⟩ := hb
    exact mixCol_length c (hmem c hc).1

theorem mixColumns_bytesOk (s : List Nat) (h : s.length = 16) (hb : BytesOk s) :
    BytesOk (mixColumns s) := by
  have hch : toChunks4 s = chunksN 4 4 s := by rw [toChunks4, h]
  have hmem := chunksN_mem 4 4 s (by omega)
  intro x hx
  rw [mixColumns, hch] at hx
  simp only [List.mem_flatten, List.mem_map] at hx
  obtain ⟨l, ⟨c, hc, rfl⟩, hxl⟩ := hx
  exact mixCol_bytesOk c (hmem c hc).1 (fun u hu => hb u ((hmem c hc).2 u hu)) x hxl

theorem invMixColumns_mixColumns (s : List Nat) (h : s.length = 16)
    (hb : BytesOk s) : invMixColumns (mixColumns s) = s := by
  have hch : toChunks4 s = chunksN 4 4 s := by rw [toChunks4, h]
  have hmem := chunksN_mem 4 4 s (by omega)
  have hlen : ∀ b ∈ (chunksN 4 4 s).map mixCol, b.length = 4 := by
    intro b hbm
    simp only [List.mem_map] at hbm
    obtain ⟨c, hc, rfl⟩ := hbm
    exact mixCol_length c (hmem c hc).1
  have hflat : (((chunksN 4 4 s).map mixCol).flatten).length = 16 := by
    rw [flatten_length_const 4 _ hlen]
    simp [chunksN_length]
  rw [invMixColumns, mixColumns, hch, toChunks4, hflat]
  rw [show (16 : Nat) / 4 = ((chunksN 4 4 s).map mixCol).length from by
    simp [chunksN_length]]
  rw [chunksN_of_blocks 4 _ hlen]
  have : ∀ c ∈ chunksN 4 4 s, invMixCol (mixCol c) = c := by
    intro c hc
    obtain ⟨hc4, hcm⟩ := hmem c hc
    rcases c with _ | ⟨a, _ | ⟨b2, _ | ⟨u, _ | ⟨d, _ | ⟨e, es⟩⟩⟩⟩⟩ <;> simp at hc4
    exact invMixCol_mixCol a b2 u d (hb a (hcm a (by simp)))
      (hb b2 (hcm b2 (by simp))) (hb u (hcm u (by simp))) (hb d (hcm d (by simp)))
  rw [List.map_map]
  have hmapid : (chunksN 4 4 s).map (invMixCol ∘ mixCol) = chunksN 4 4 s := by
    apply List.map_congr_left ?_ |>.trans (List.map_id _)
    intro c hc
    exact this c hc
  rw [hmapid, ← hch, toChunks4_flatten s (by omega)]

theorem getD_mem {α : Type} : ∀ (l : List α) (k : Nat) (d : α), k < l.length →
    l.getD k d ∈ l
  | [], _, _, h => by simp at h
  | x :: xs, 0, d, _ => by simp
  | x :: xs, k + 1, d, h => by
    simp only [List.getD_cons_succ, List.mem_cons]
    exact Or.inr (getD_mem xs k d (by simpa using h))

/-- The encryption state stays a well-formed block through the rounds. -/
theorem aesEncRounds_blockOk : ∀ (rks : List (List Nat)) (s : List Nat),
    RksOk rks → BlockOk s → BlockOk (aesEncRounds rks s)
  | [], _, _, hs => hs
  | [rk], s, hr, hs => by
    have hrk := hr rk (by simp)
    refine ⟨?_, xorBytes_bytesOk (shiftRows_bytesOk _ (subBytes_bytesOk _)) hrk.2⟩
    rw [aesEncRounds, xorBytes_length, shiftRows_length, subBytes_length, hs.1, hrk.1]
    simp
  | rk :: rk2 :: rks, s, hr, hs => by
    have hrk := hr rk (by simp)
    have h1 : (subBytes s).length = 16 := by rw [subBytes_length, hs.1]
    have h2 : (shiftRows (subBytes s)).length = 16 := by rw [shiftRows_length, h1]
    have hbytes : BytesOk (mixColumns (shiftRows (subBytes s))) :=
      mixColumns_bytesOk _ h2 (shiftRows_bytesOk _ (subBytes_bytesOk _))
    refine aesEncRounds_blockOk (rk2 :: rks) _ (fun k hk => hr k (by simp [hk])) ⟨?_, ?_⟩
    · rw [xorBytes_length, mixColumns_length _ h2, hrk.1]
      simp
    · exact xorBytes_bytesOk hbytes hrk.2

/-- The inverse rounds undo the rounds on well-formed blocks under
well-formed round keys. -/
theorem aesDecRounds_aesEncRounds : ∀ (rks : List (List Nat)) (s : List Nat),
    RksOk rks → BlockOk s → aesDecRounds rks (aesEncRounds rks s) = s
  | [], _, _, _ => rfl
  | [rk], s, hr, hs => by
    have hrk := hr rk (by simp)
    simp only [aesEncRounds, aesDecRounds]
    rw [xorBytes_cancel _ rk (by rw [shiftRows_length, subBytes_length, hs.1, hrk.1]),
      invShiftRows_shiftRows, invSubBytes_subBytes s hs.2]
  | rk :: rk2 :: rks, s, hr, hs => by
    have hrk := hr rk (by simp)
    have h1 : (subBytes s).length = 16 := by rw [subBytes_length, hs.1]
    have h2 : (shiftRows (subBytes s)).length = 16 := by rw [shiftRows_length, h1]
    have hbytes : BytesOk (shiftRows (subBytes s)) :=
      shiftRows_bytesOk _ (subBytes_bytesOk _)
    have hnew : BlockOk (xorBytes (mixColumns (shiftRows (subBytes s))) rk) := by
      refine ⟨?_, xorBytes_bytesOk (mixColumns_bytesOk _ h2 hbytes) hrk.2⟩
      rw [xorBytes_length, mixColumns_length _ h2, hrk.1]
      simp
    simp only [aesEncRounds, aesDecRounds]
    rw [aesDecRounds_aesEncRounds (rk2 :: rks) _ (fun k hk => hr k (by simp [hk])) hnew,
      xorBytes_cancel _ rk (by rw [mixColumns_length _ h2, hrk.1]),
      invMixColumns_mixColumns _ h2 hbytes,
      invShiftRows_shiftRows, invSubBytes_subBytes s hs.2]

theorem aesEncryptBlock_blockOk (key block : List Nat)
    (hr : RksOk (roundKeys key)) (hb : BlockOk block) :
    BlockOk (aesEncryptBlock key block) := by
  cases hrk : roundKeys key with
  | nil => simpa [aesEncryptBlock, hrk] using hb
  | cons rk0 rks =>
    have hr' : RksOk (rk0 :: rks) := hrk ▸ hr
    have hrk0 := hr' rk0 (by simp)
    simp only [aesEncryptBlock, hrk]
    refine aesEncRounds_blockOk rks _ (fun k hk => hr' k (by simp [hk])) ⟨?_, ?_⟩
    · rw [xorBytes_length, hb.1, hrk0.1]
      simp
    · exact xorBytes_bytesOk hb.2 hrk0.2

/-- AES block decryption inverts AES block encryption. -/
theorem aesDecryptBlock_aesEncryptBlock (key block : List Nat)
    (hr : RksOk (roundKeys key)) (hb : BlockOk block) :
    aesDecryptBlock key (aesEncryptBlock key block) = block := by
  cases hrk : roundKeys key with
  | nil => simp [aesEncryptBlock, aesDecryptBlock, hrk]
  | cons rk0 rks =>
    have hr' : RksOk (rk0 :: rks) := hrk ▸ hr
    have hrk0 := hr' rk0 (by simp)
    have hstart : BlockOk (xorBytes block rk0) :=
      ⟨by rw [xorBytes_length, hb.1, hrk0.1]; simp, xorBytes_bytesOk hb.2 hrk0.2⟩
    simp only [aesEncryptBlock, aesDecryptBlock, hrk]
    rw [aesDecRounds_aesEncRounds rks _ (fun k hk => hr' k (by simp [hk])) hstart,
      xorBytes_cancel block rk0 (by rw [hb.1, hrk0.1])]

/-- Schedule words are nonempty, 4 bytes each, all entries bytes. -/
abbrev WordsOk (ws : List (List Nat)) : Prop :=
  ws ≠ [] ∧ ∀ w ∈ ws, w.length = 4 ∧ BytesOk w

theorem subWord_length (w : List Nat) : (subWord w).length = w.length := by
  simp [subWord]

theorem subWord_bytesOk (w : List Nat) : BytesOk (subWord w) := by
  intro x hx
  simp only [subWord, List.mem_map] at hx
  obtain ⟨y, _, rfl⟩ := hx
  exact sboxB_lt y

theorem rotWord_ok (w : List Nat) (h : w.length = 4) (hb : BytesOk w) :
    (rotWord w).length = 4 ∧ BytesOk (rotWord w) := by
  rcases w with _ | ⟨a, _ | ⟨b, _ | ⟨c, _ | ⟨d, _ | ⟨e, es⟩⟩⟩⟩⟩ <;> simp at h
  refine ⟨rfl, ?_⟩
  intro x hx
  apply hb
  simp only [rotWord, List.mem_cons, List.not_mem_nil, or_false] at hx ⊢
  tauto

theorem rconList_getD_lt (j : Nat) : rconList.getD j 0 < 256 := by
  by_cases h : j < 7
  · exact (by decide : ∀ j < 7, rconList.getD j 0 < 256) j h
  · rw [List.getD_eq_default]
    · norm_num
    · rw [show rconList.length = 7 from rfl]
      omega

theorem ksNext_wordsOk (ws : List (List Nat)) (h : WordsOk ws) :
    WordsOk (ksNext ws) := by
  obtain ⟨hne, hws⟩ := h
  have hpos : 0 < ws.length := List.length_pos.mpr hne
  have hprev := hws (ws.getD (ws.length - 1) []) (getD_mem ws _ [] (by omega))
  have hw8 := hws (ws.getD (ws.length - 8) []) (getD_mem ws _ [] (by omega))
  have hrot := rotWord_ok _ hprev.1 hprev.2
  constructor
  · simp [ksNext]
  · intro w hw
    simp only [ksNext, List.mem_append, List.mem_cons, List.not_mem_nil, or_false] at hw
    rcases hw with hw | hw
    · exact hws w hw
    · subst hw
      have ht4 : (if ws.length % 8 = 0 then
          xorBytes (subWord (rotWord (ws.getD (ws.length - 1) [])))
            [rconList.getD (ws.length / 8 - 1) 0, 0, 0, 0]
        else if ws.length % 8 = 4 then subWord (ws.getD (ws.length - 1) [])
        else ws.getD (ws.length - 1) []).length = 4 ∧
          BytesOk (if ws.length % 8 = 0 then
          xorBytes (subWord (rotWord (ws.getD (ws.length - 1) [])))
            [rconList.getD (ws.length / 8 - 1) 0, 0, 0, 0]
        else if ws.length % 8 = 4 then subWord (ws.getD (ws.length - 1) [])
        else ws.getD (ws.length - 1) []) := by
        split
        · constructor
          · rw [xorBytes_length, subWord_length, hrot.1]
            rfl
          · refine xorBytes_bytesOk (subWord_bytesOk _) ?_
            intro x hx
            simp only [List.mem_cons, List.not_mem_nil, or_false] at hx
            rcases hx with rfl | rfl | rfl | rfl
            · exact rconList_getD_lt _
            all_goals norm_num
        · split
          · exact ⟨by rw [subWord_length, hprev.1], subWord_bytesOk _⟩
          · exact hprev
      exact ⟨by rw [xorBytes_length, hw8.1, ht4.1]; simp, xorBytes_bytesOk hw8.2 ht4.2⟩

theorem ksNext_length (ws : List (List Nat)) : (ksNext ws).length = ws.length + 1 := by
  simp [ksNext]

theorem iterate_ksNext_wordsOk : ∀ (n : Nat) (ws : List (List Nat)),
    WordsOk ws → WordsOk (ksNext^[n] ws)
  | 0, _, h => h
  | n + 1, ws, h => by
    rw [Function.iterate_succ_apply]
    exact iterate_ksNext_wordsOk n _ (ksNext_wordsOk ws h)

theorem iterate_ksNext_length : ∀ (n : Nat) (ws : List (List Nat)),
    (ksNext^[n] ws).length = ws.length + n
  | 0, _ => by simp
  | n + 1, ws => by
    rw [Function.iterate_succ_apply, iterate_ksNext_length n, ksNext_length]
    omega

theorem keyWords_wordsOk (key : List Nat) (hk : key.length = 32)
    (hb : BytesOk key) : WordsOk (keyWords key) := by
  have hch : (toChunks4 key).length = 8 := by
    simp only [toChunks4]
    rw [chunksN_length, hk]
  refine iterate_ksNext_wordsOk 52 _ ⟨?_, ?_⟩
  · intro h
    rw [h] at hch
    simp at hch
  · intro w hw
    simp only [toChunks4] at hw
    have := chunksN_mem 4 (key.length / 4) key (by omega) w hw
    exact ⟨this.1, fun x hx => hb x (this.2 x hx)⟩

theorem keyWords_length (key : List Nat) (hk : key.length = 32) :
    (keyWords key).length = 60 := by
  rw [keyWords, iterate_ksNext_length]
  simp only [toChunks4]
  rw [chunksN_length, hk]

theorem roundKeys_rksOk (key : List Nat) (hk : key.length = 32)
    (hb : BytesOk key) : RksOk (roundKeys key) := by
  obtain ⟨hne, hws⟩ := keyWords_wordsOk key hk hb
  have hlen := keyWords_length key hk
  intro rk hrk
  simp only [roundKeys, toChunks4, List.mem_map] at hrk
  obtain ⟨c, hc, rfl⟩ := hrk
  have hm := chunksN_mem 4 ((keyWords key).length / 4) (keyWords key)
    (by omega) c hc
  obtain ⟨hc4, hcm⟩ := hm
  rcases c with _ | ⟨w1, _ | ⟨w2, _ | ⟨w3, _ | ⟨w4, _ | ⟨w5, ws5⟩⟩⟩⟩⟩ <;> simp at hc4
  have h1 := hws w1 (hcm w1 (by simp))
  have h2 := hws w2 (hcm w2 (by simp))
  have h3 := hws w3 (hcm w3 (by simp))
  have h4 := hws w4 (hcm w4 (by simp))
  constructor
  · simp [List.length_append, h1.1, h2.1, h3.1, h4.1]
  · intro x hx
    simp only [List.flatten_cons, List.flatten_nil, List.append_nil,
      List.mem_append] at hx
    rcases hx with hx | hx | hx | hx
    · exact h1.2 x hx
    · exact h2.2 x hx
    · exact h3.2 x hx
    · exact h4.2 x hx

theorem wordBytesBE_bytesOk (w : Nat) : BytesOk (wordBytesBE w) := by
  intro x hx
  simp only [wordBytesBE, List.mem_cons, List.not_mem_nil, or_false] at hx
  rcases hx with rfl | rfl | rfl | rfl <;> exact Nat.mod_lt _ (by norm_num)

theorem sha256_length (p : List Nat) : (sha256 p).length = 32 := by
  simp [sha256, wordBytesBE]

theorem sha256_bytesOk (p : List Nat) : BytesOk (sha256 p) := by
  intro x hx
  simp only [sha256, List.mem_append] at hx
  rcases hx with ((((((hx | hx) | hx) | hx) | hx) | hx) | hx) | hx <;>
    exact wordBytesBE_bytesOk _ x hx

theorem cbcEncBlocks_length (key : List Nat) :
    ∀ (prev : List Nat) (bs : List (List Nat)),
      (cbcEncBlocks key prev bs).length = bs.length
  | _, [] => rfl
  | prev, p :: rest => by
    simp only [cbcEncBlocks, List.length_cons]
    rw [cbcEncBlocks_length key _ rest]

theorem cbcEncBlocks_blockOk (key : List Nat) (hr : RksOk (roundKeys key)) :
    ∀ (prev : List Nat) (bs : List (List Nat)), BlockOk prev →
      (∀ b ∈ bs, BlockOk b) → ∀ c ∈ cbcEncBlocks key prev bs, BlockOk c
  | _, [], _, _ => by simp [cbcEncBlocks]
  | prev, p :: rest, hprev, hbs => by
    intro c hc
    simp only [cbcEncBlocks, List.mem_cons] at hc
    have hp := hbs p (by simp)
    have hx : BlockOk (xorBytes p prev) :=
      ⟨by rw [xorBytes_length, hp.1, hprev.1]; simp, xorBytes_bytesOk hp.2 hprev.2⟩
    have henc := aesEncryptBlock_blockOk key _ hr hx
    rcases hc with rfl | hc
    · exact henc
    · exact cbcEncBlocks_blockOk key hr _ rest henc
        (fun b hb => hbs b (by simp [hb])) c hc

theorem cbcDecBlocks_cbcEncBlocks (key : List Nat) (hr : RksOk (roundKeys key)) :
    ∀ (prev : List Nat) (bs : List (List Nat)), BlockOk prev →
      (∀ b ∈ bs, BlockOk b) →
      cbcDecBlocks key prev (cbcEncBlocks key prev bs) = bs
  | _, [], _, _ => rfl
  | prev, p :: rest, hprev, hbs => by
    have hp := hbs p (by simp)
    have hx : BlockOk (xorBytes p prev) :=
      ⟨by rw [xorBytes_length, hp.1, hprev.1]; simp, xorBytes_bytesOk hp.2 hprev.2⟩
    simp only [cbcEncBlocks, cbcDecBlocks]
    rw [aesDecryptBlock_aesEncryptBlock key _ hr hx,
      xorBytes_cancel p prev (by rw [hp.1, hprev.1]),
      cbcDecBlocks_cbcEncBlocks key hr _ rest (aesEncryptBlock_blockOk key _ hr hx)
        (fun b hb => hbs b (by simp [hb]))]

theorem toChunks16_blockOk (data : List Nat) (hlen : data.length % 16 = 0)
    (hd : BytesOk data) : ∀ b ∈ toChunks16 data, BlockOk b := by
  intro b hb
  simp only [toChunks16] at hb
  have := chunksN_mem 16 (data.length / 16) data (by omega) b hb
  exact ⟨this.1, fun x hx => hd x (this.2 x hx)⟩

/-- CBC decryption inverts CBC encryption on 16-byte-aligned payloads. -/
theorem cbcDecrypt_cbcEncrypt (key iv data : List Nat)
    (hr : RksOk (roundKeys key)) (hiv : BlockOk iv) (hd : BytesOk data)
    (hlen : data.length % 16 = 0) :
    cbcDecrypt key iv (cbcEncrypt key iv data) = .ok data := by
  have hbs := toChunks16_blockOk data hlen hd
  have hencOk := cbcEncBlocks_blockOk key hr iv (toChunks16 data) hiv hbs
  have henclen : ∀ b ∈ cbcEncBlocks key iv (toChunks16 data), b.length = 16 :=
    fun b hb => (hencOk b hb).1
  have hctlen : (cbcEncrypt key iv data).length =
      16 * (cbcEncBlocks key iv (toChunks16 data)).length :=
    flatten_length_const 16 _ henclen
  rw [cbcDecrypt, if_neg (by rw [hiv.1]; omega),
    if_neg (by rw [hctlen]; omega)]
  have hchunks : toChunks16 (cbcEncrypt key iv data) =
      cbcEncBlocks key iv (toChunks16 data) := by
    rw [toChunks16, hctlen, Nat.mul_div_cancel_left _ (by norm_num : (0:Nat) < 16)]
    exact chunksN_of_blocks 16 _ henclen
  rw [hchunks, cbcDecBlocks_cbcEncBlocks key hr iv _ hiv hbs,
    toChunks16_flatten data hlen]

theorem getLastD_eq_of_ne_nil {α : Type} : ∀ (l : List α) (d1 d2 : α), l ≠ [] →
    l.getLastD d1 = l.getLastD d2
  | [], _, _, h => absurd rfl h
  | [x], _, _, _ => rfl
  | _ :: _ :: _, _, _, _ => by simp only [List.getLastD_cons]

theorem getLastD_append_right {α : Type} : ∀ (l1 l2 : List α) (d : α), l2 ≠ [] →
    (l1 ++ l2).getLastD d = l2.getLastD d
  | [], _, _, _ => rfl
  | x :: xs, l2, d, h => by
    rw [List.cons_append, List.getLastD_cons, getLastD_append_right xs l2 x h]
    exact getLastD_eq_of_ne_nil l2 x d h

theorem getLastD_replicate (n v : Nat) (d : Nat) (h : 1 ≤ n) :
    (List.replicate n v).getLastD d = v := by
  induction n generalizing d with
  | zero => omega
  | succ m ih =>
    rw [List.replicate_succ, List.getLastD_cons]
    cases m with
    | zero => rfl
    | succ k => exact ih v (by omega)

/-- PKCS#7 unpadding inverts padding. -/
theorem pkcs7Unpad_pkcs7Pad (data : List Nat) :
    pkcs7Unpad (pkcs7Pad data) = .ok data := by
  have hr : data.length % 16 < 16 := Nat.mod_lt _ (by norm_num)
  have hlen : (pkcs7Pad data).length =
      data.length + (16 - data.length % 16) := by
    simp [pkcs7Pad]
  have hlast : (pkcs7Pad data).getLastD 0 = 16 - data.length % 16 := by
    rw [pkcs7Pad, getLastD_append_right _ _ _ (by
        intro h
        have := congrArg List.length h
        simp at this
        omega),
      getLastD_replicate _ _ _ (by omega)]
  have hdrop : (pkcs7Pad data).drop ((pkcs7Pad data).length -
      (16 - data.length % 16)) = List.replicate (16 - data.length % 16)
        (16 - data.length % 16) := by
    rw [hlen, pkcs7Pad]
    have : data.length + (16 - data.length % 16) - (16 - data.length % 16) =
        data.length := by omega
    rw [this]
    exact List.drop_left data _
  have htake : (pkcs7Pad data).take ((pkcs7Pad data).length -
      (16 - data.length % 16)) = data := by
    rw [hlen, pkcs7Pad]
    have : data.length + (16 - data.length % 16) - (16 - data.length % 16) =
        data.length := by omega
    rw [this]
    exact List.take_left data _
  rw [pkcs7Unpad]
  rw [if_neg (by omega : ¬ (pkcs7Pad data).length = 0)]
  rw [if_neg (by rw [hlen]; omega : ¬ (pkcs7Pad data).length % 16 ≠ 0)]
  simp only [hlast]
  rw [if_neg (by
    push_neg
    constructor
    · omega
    · rw [hlen]
      omega)]
  rw [if_neg (by rw [hdrop]; simp)]
  rw [htake]

theorem updateFirst_map (p : BiometricRow → Bool) (f : BiometricRow → BiometricRow)
    {α : Type} (g : BiometricRow → α) (hg : ∀ r, g (f r) = g r) :
    ∀ l : List BiometricRow, (updateFirst p f l).map g = l.map g := by
  intro l
  induction l with
  | nil => rfl
  | cons r rest ih =>
    by_cases hp : p r
    · simp [updateFirst, hp, hg]
    · simp [updateFirst, hp, ih]

theorem updateFirst_find? (p : BiometricRow → Bool) (f : BiometricRow → BiometricRow)
    (hp : ∀ r, p (f r) = p r) :
    ∀ l : List BiometricRow, (updateFirst p f l).find? p = (l.find? p).map f := by
  intro l
  induction l with
  | nil => rfl
  | cons r rest ih =>
    by_cases h : p r
    · simp [updateFirst, h, List.find?, hp]
    · simp [updateFirst, h, List.find?, ih]

/-- C3: verifying a not-enrolled modality (no row, or `is_enrolled`
disabled) short-circuits to `success = false` with the "... biometric not
enrolled" message and never consults the modality services: the result is
independent of the face and voice handlers. -/
theorem verify_biometric_not_enrolled_short_circuit
    (fmt : ℚ → String) (mint : String)
    (faceH voiceH faceH2 voiceH2 : String → Option String → Except String VerifyResult)
    (db : List BiometricRow) (uid : Nat) (btype : String) (vdata : Option String)
    (h : findBiometric db uid btype = none ∨
         ∃ r, findBiometric db uid btype = some r ∧ r.is_enrolled = false) :
    verify_biometric fmt mint faceH voiceH db uid btype vdata =
      .ok ⟨false, pyCapitalize btype ++ " biometric not enrolled", none⟩ ∧
    verify_biometric fmt mint faceH voiceH db uid btype vdata =
      verify_biometric fmt mint faceH2 voiceH2 db uid btype vdata := by
  rcases h with h | ⟨r, hr, hre⟩
  · constructor <;> simp [verify_biometric, h]
  · constructor <;> simp [verify_biometric, hr, hre]

/-- Witness for C3 on a concrete store: a disabled face row for user 1. -/
theorem verify_biometric_not_enrolled_short_circuit_witness :
    verify_biometric (fun _ => "0.0") "tok" (fun _ _ => .error "face err")
      (fun _ _ => .error "voice err")
      [⟨1, "face", false, some "blob"⟩] 1 "face" (some "img") =
      .ok ⟨false, pyCapitalize "face" ++ " biometric not enrolled", none⟩ :=
  (verify_biometric_not_enrolled_short_circuit (fun _ => "0.0") "tok"
    (fun _ _ => .error "face err") (fun _ _ => .error "voice err")
    (fun _ _ => .error "face err") (fun _ _ => .error "voice err")
    [⟨1, "face", false, some "blob"⟩] 1 "face" (some "img")
    (Or.inr ⟨⟨1, "face", false, some "blob"⟩, by decide, rfl⟩)).1

/-- C10: a successful toggle changes only the enrollment flag of the
addressed row: template bytes (`enrollment_data`) and row identities are
unchanged across the whole table, the addressed row keeps its template
with the flag set to `enabled`, and after toggling off, verification for
that modality short-circuits as not enrolled (independently of the
modality handlers) while the template is still stored. -/
theorem toggle_biometric_preserves_template
    (db db' : List BiometricRow) (uid : Nat) (btype : String) (enabled : Bool)
    (resp : BiometricResponse)
    (h : toggle_biometric db uid btype enabled = .ok (db', resp)) :
    db'.map (fun r => r.enrollment_data) = db.map (fun r => r.enrollment_data) ∧
    db'.map (fun r => (r.user_id, r.biometric_type)) =
      db.map (fun r => (r.user_id, r.biometric_type)) ∧
    (∃ r, findBiometric db uid btype = some r ∧
       findBiometric db' uid btype =
         some { r with is_enrolled := enabled } ∧
       ({ r with is_enrolled := enabled } : BiometricRow).enrollment_data =
         r.enrollment_data) ∧
    (enabled = false → ∀ fmt mint faceH voiceH vdata,
       verify_biometric fmt mint faceH voiceH db' uid btype vdata =
         .ok ⟨false, pyCapitalize btype ++ " biometric not enrolled", none⟩) := by
  rcases hfind : findBiometric db uid btype with _ | r
  · simp [toggle_biometric, hfind] at h
  · simp only [toggle_biometric, hfind, Except.ok.injEq, Prod.mk.injEq] at h
    obtain ⟨hdb', -⟩ := h
    have hfind' : findBiometric db' uid btype =
        some { r with is_enrolled := enabled } := by
      have hfu := updateFirst_find?
        (fun r => r.user_id == uid && r.biometric_type == btype)
        (fun r => { r with is_enrolled := enabled }) (fun _ => rfl) db
      simp only [findBiometric] at hfind ⊢
      rw [← hdb', hfu, hfind]
      rfl
    refine ⟨?_, ?_, ⟨r, rfl, hfind', rfl⟩, ?_⟩
    · rw [← hdb']
      exact updateFirst_map
        (fun r => r.user_id == uid && r.biometric_type == btype)
        (fun r => { r with is_enrolled := enabled })
        (fun r => r.enrollment_data) (fun _ => rfl) db
    · rw [← hdb']
      exact updateFirst_map
        (fun r => r.user_id == uid && r.biometric_type == btype)
        (fun r => { r with is_enrolled := enabled })
        (fun r => (r.user_id, r.biometric_type)) (fun _ => rfl) db
    · intro he fmt mint faceH voiceH vdata
      subst he
      simp [verify_biometric, hfind']

/-- Witness for C10 on a concrete store: toggling the enrolled voice row
of user 1 off keeps its encrypted template in place. -/
theorem toggle_biometric_preserves_template_witness :
    ([⟨1, "voice", false, some "blob"⟩] : List BiometricRow).map
        (fun r => r.enrollment_data) =
      ([⟨1, "voice", true, some "blob"⟩] : List BiometricRow).map
        (fun r => r.enrollment_data) :=
  (toggle_biometric_preserves_template [⟨1, "voice", true, some "blob"⟩]
    [⟨1, "voice", false, some "blob"⟩] 1 "voice" false
    ⟨true, pyCapitalize "voice" ++ " biometric " ++ "disabled", none⟩
    rfl).1

/-- C2 counterexample: the config salt and a different salt, with the same
secret, derive the SAME key — `_generate_encryption_key` hashes only the
password, so the salt never enters the digest. -/
theorem encryption_key_ignores_salt_counterexample :
    BIOMETRIC_ENCRYPTION_SALT ≠ strBytes "a-totally-different-salt" ∧
    (EncryptionService.mk BIOMETRIC_ENCRYPTION_KEY BIOMETRIC_ENCRYPTION_SALT).encryption_key =
      (EncryptionService.mk BIOMETRIC_ENCRYPTION_KEY
        (strBytes "a-totally-different-salt")).encryption_key :=
  ⟨by decide, rfl⟩

/-- C2 amended: the 256-bit key is the SHA-256 digest of the secret alone,
computed at construction; the salt is stored but unused, so any two salts
(same secret) yield identical 32-byte keys. -/
theorem encryption_key_from_secret_only (p s1 s2 : List Nat) :
    (EncryptionService.mk p s1).encryption_key =
      (EncryptionService.mk p s2).encryption_key ∧
    (EncryptionService.mk p s1).encryption_key = sha256 p ∧
    ((EncryptionService.mk p s1).encryption_key).length = 32 := by
  refine ⟨rfl, rfl, ?_⟩
  simp [EncryptionService.encryption_key, EncryptionService.generate_encryption_key,
    sha256, wordBytesBE]

/-- Clamping the similarity to [0, 1] and scaling by 100 is the same as
scaling by 100 and clamping to [0, 100]. -/
theorem clamp01_mul_100 (w : ℚ) :
    max 0 (min 1 w) * 100 = max 0 (min 100 (w * 100)) := by
  rcases le_total w 0 with h | h
  · rw [min_eq_right (by linarith), max_eq_left (by linarith),
      min_eq_right (by linarith), max_eq_left (by linarith), zero_mul]
  · rcases le_total 1 w with h1 | h1
    · rw [min_eq_left h1, min_eq_left (by linarith), max_eq_right (by linarith),
        max_eq_right (by linarith), one_mul]
    · rw [min_eq_right h1, min_eq_right (by linarith), max_eq_right (by positivity),
        max_eq_right (by positivity)]

/-- For a threshold in (0, 1], comparing against the [0, 1]-clamped value
is the same as comparing against the raw value. -/
theorem le_clamp01_iff (w th : ℚ) (h1 : 0 < th) (h2 : th ≤ 1) :
    (th ≤ max 0 (min 1 w)) ↔ th ≤ w := by
  constructor
  · intro h
    rcases le_total w 0 with hw | hw
    · rw [min_eq_right (by linarith), max_eq_left (by linarith)] at h
      linarith
    · rcases le_total 1 w with hw1 | hw1
      · linarith
      · rw [min_eq_right hw1, max_eq_right hw] at h
        exact h
  · intro h
    rcases le_total 1 w with hw1 | hw1
    · rw [min_eq_left hw1, max_eq_right (by linarith)]
      exact h2
    · rw [min_eq_right hw1, max_eq_right (by linarith)]
      exact h

/-- C4: for every modality and every tolerance `t` in [0, 1), the verify
result satisfies `threshold = 1 - t`, `success = (combined ≥ threshold)`
and `confidence = clamp(combined * 100, 0, 100)`, where `combined` is the
fixed weighted average of the cosine, normalized-Euclidean and correlation
metrics of that modality (for fingerprint the stored similarity is the
[0, 1]-clamp of that average, and the decision agrees with comparing the
raw average against the threshold). -/
theorem decision_policy (rt : ℚ → ℚ) (a b : List ℚ) (t : ℚ)
    (ht0 : 0 ≤ t) (ht1 : t < 1) :
    (verify_face rt a b t =
      { success := decide (1 - t ≤ face_combined rt
          (a.take (min a.length b.length)) (b.take (min a.length b.length)))
        confidence := max 0 (min 100 (face_combined rt
          (a.take (min a.length b.length)) (b.take (min a.length b.length)) * 100))
        similarity := face_combined rt
          (a.take (min a.length b.length)) (b.take (min a.length b.length))
        threshold := 1 - t }) ∧
    (verify_voice rt a b t =
      { success := decide (1 - t ≤ voice_combined rt
          (a.take (min a.length b.length)) (b.take (min a.length b.length)))
        confidence := max 0 (min 100 (voice_combined rt
          (a.take (min a.length b.length)) (b.take (min a.length b.length)) * 100))
        similarity := voice_combined rt
          (a.take (min a.length b.length)) (b.take (min a.length b.length))
        threshold := 1 - t }) ∧
    (a.length = b.length →
      verify_fingerprint rt a b t =
        .ok { success := decide (1 - t ≤ fingerprint_combined rt a b)
              confidence := max 0 (min 100 (fingerprint_combined rt a b * 100))
              similarity := max 0 (min 1 (fingerprint_combined rt a b))
              threshold := 1 - t }) := by
  refine ⟨rfl, rfl, ?_⟩
  intro h
  have hth0 : 0 < 1 - t := by linarith
  have hth1 : 1 - t ≤ 1 := by linarith
  simp only [verify_fingerprint, h, if_true, Except.ok.injEq]
  refine VerifyResult.mk.injEq .. ▸ ?_
  exact ⟨by rw [decide_eq_decide]
            exact le_clamp01_iff (fingerprint_combined rt a b) (1 - t) hth0 hth1,
         clamp01_mul_100 (fingerprint_combined rt a b), rfl, rfl⟩

/-- Witness for C4: the fingerprint decision stage on concrete zero
vectors with tolerance 3/4 evaluates as the claim prescribes. -/
theorem decision_policy_witness :
    verify_fingerprint sqrtLookup [0, 0] [0, 0] (3/4) =
      .ok { success := true, confidence := 30, similarity := 3/10, threshold := 1/4 } := by
  have h := (decision_policy sqrtLookup [0, 0] [0, 0] (3/4)
    (by norm_num) (by norm_num)).2.2 rfl
  rw [h]
  norm_num [fingerprint_combined, cosineSim, fingerprint_distance,
    fingerprint_correlation, sumSq, dotQ, subV, centered, meanQ, sqrtLookup,
    min_def, max_def]

/-- C5 counterexample: in fingerprint verification the correlation metric
that enters the combined score is the RAW Pearson value, not its [0, 1]
remap: on the concrete pair below it is -1 (outside [0, 1]), while the
remapped value would be 0. -/
theorem correlation_remap_counterexample :
    fingerprint_correlation sqrtLookup [3, 5, -8] [-3, -5, 8] = -1 ∧
    ¬ (0 ≤ fingerprint_correlation sqrtLookup [3, 5, -8] [-3, -5, 8]) ∧
    (corrcoefQ sqrtLookup [3, 5, -8] [-3, -5, 8] + 1) / 2 = 0 := by
  refine ⟨?_, ?_, ?_⟩ <;>
    norm_num [fingerprint_correlation, corrcoefQ, centered, meanQ, sumSq, dotQ,
      sqrtLookup]

/-- C5 amended: voice remaps the correlation to [0, 1] (clamped below at
0) and yields 0 on zero variance; face remaps after replacing the
undefined (nan) value by 0, so zero variance contributes 1/2, not 0; the
fingerprint metric is the raw unremapped `np.corrcoef` value (0 on zero
variance). -/
theorem correlation_remap_amended (rt : ℚ → ℚ) (a b : List ℚ)
    (h0 : SqrtAt rt 0) :
    (sumSq (centered a) = 0 →
      face_correlation_similarity rt a b = 1/2 ∧
      voice_correlation_similarity rt a b = 0 ∧
      fingerprint_correlation rt a b = 0) ∧
    (0 < sumSq (centered a) → 0 < sumSq (centered b) →
      voice_correlation_similarity rt a b =
        max 0 ((face_correlation rt a b + 1) / 2) ∧
      fingerprint_correlation rt a b = corrcoefQ rt a b) := by
  have hrt0 : rt 0 = 0 := mul_self_eq_zero.mp h0.2
  constructor
  · intro hza
    refine ⟨?_, ?_, ?_⟩
    · simp [face_correlation_similarity, face_correlation, hza, hrt0]
    · simp [voice_correlation_similarity, hza]
    · simp [fingerprint_correlation, hza]
  · intro hpa hpb
    constructor
    · simp only [voice_correlation_similarity, if_pos (And.intro hpa hpb),
        face_correlation]
    · simp [fingerprint_correlation, hpa, hpb]

/-- Witness for C5 amended: a constant vector (zero variance) against a
non-constant one. -/
theorem correlation_remap_amended_witness :
    face_correlation_similarity sqrtLookup [1, 1] [1, 2] = 1/2 ∧
    voice_correlation_similarity sqrtLookup [1, 1] [1, 2] = 0 ∧
    fingerprint_correlation sqrtLookup [1, 1] [1, 2] = 0 :=
  (correlation_remap_amended sqrtLookup [1, 1] [1, 2]
    ⟨by norm_num [sqrtLookup], by norm_num [sqrtLookup]⟩).1
    (by norm_num [sumSq, dotQ, centered, meanQ])

/-- C6 counterexample: fingerprint verification does not truncate; on two
encodings of different lengths the scoring stage raises (numpy shape
error caught and re-raised as ValueError) instead of being defined. -/
theorem truncation_counterexample :
    verify_fingerprint sqrtLookup [0] [0, 0] (1/20) =
      .error "Fingerprint verification failed: shapes not aligned" := rfl

/-- C6 amended: face and voice verification truncate both vectors to the
shorter length before any metric (their result only depends on the
truncated pair); fingerprint verification does not truncate and errors
whenever the two lengths differ. -/
theorem truncation_amended (rt : ℚ → ℚ) (a b : List ℚ) (t : ℚ) :
    verify_face rt a b t =
      verify_face rt (a.take (min a.length b.length))
        (b.take (min a.length b.length)) t ∧
    verify_voice rt a b t =
      verify_voice rt (a.take (min a.length b.length))
        (b.take (min a.length b.length)) t ∧
    (a.length ≠ b.length →
      verify_fingerprint rt a b t =
        .error "Fingerprint verification failed: shapes not aligned") := by
  have hm1 : min (min a.length b.length) a.length = min a.length b.length :=
    min_eq_left (min_le_left _ _)
  have hm2 : min (min a.length b.length) b.length = min a.length b.length :=
    min_eq_left (min_le_right _ _)
  refine ⟨?_, ?_, ?_⟩
  · simp only [verify_face, List.length_take, hm1, hm2, min_self, List.take_take]
  · simp only [verify_voice, List.length_take, hm1, hm2, min_self, List.take_take]
  · intro h
    simp [verify_fingerprint, h]

/-- Witness for C6 amended: the fingerprint error branch on a concrete
length mismatch. -/
theorem truncation_amended_witness :
    verify_fingerprint sqrtLookup [1] [1, 2] (1/20) =
      .error "Fingerprint verification failed: shapes not aligned" :=
  (truncation_amended sqrtLookup [1] [1, 2] (1/20)).2.2 (by decide)

/-- C7: when either compared vector has zero norm (equivalently, zero sum
of squares; in particular for a zero vector against anything), the cosine
similarity is 0 by the explicit guard, and the division by the product of
norms is never taken.  `cosineSim` is the shared face/fingerprint form and
`voice_cosine` its clamped voice form. -/
theorem zero_norm_cosine_guard (rt : ℚ → ℚ) (a b : List ℚ)
    (h0 : SqrtAt rt 0) (h : sumSq a = 0 ∨ sumSq b = 0) :
    cosineSim rt a b = 0 ∧ voice_cosine rt a b = 0 := by
  have hrt0 : rt 0 = 0 := mul_self_eq_zero.mp h0.2
  have hcos : cosineSim rt a b = 0 := by
    rcases h with h | h <;> simp [cosineSim, h, hrt0]
  refine ⟨hcos, ?_⟩
  rw [voice_cosine, hcos]
  norm_num

/-- Witness for C7: the zero vector against [3, 4]. -/
theorem zero_norm_cosine_guard_witness :
    cosineSim sqrtLookup [0, 0, 0] [3, 4] = 0 ∧
    voice_cosine sqrtLookup [0, 0, 0] [3, 4] = 0 :=
  zero_norm_cosine_guard sqrtLookup [0, 0, 0] [3, 4]
    ⟨by norm_num [sqrtLookup], by norm_num [sqrtLookup]⟩
    (Or.inl (by norm_num [sumSq, dotQ]))

/-- C9 counterexample: a 50 x 50 capture (2500 pixels, below the 10000
pixel minimum) is rejected by the enrollment path but sails through the
verification path, which extracts features and reaches a match decision. -/
theorem fingerprint_verify_size_counterexample :
    enroll_fingerprint (fun _ => [0, 0]) ⟨50, 50⟩ =
      .error "Fingerprint enrollment failed: Fingerprint image too small. Please capture a clearer image." ∧
    verify_fingerprint_capture sqrtLookup (fun _ => [0, 0]) ⟨50, 50⟩ [0, 0] (3/4) =
      .ok { success := true, confidence := 30, similarity := 3/10, threshold := 1/4 } := by
  refine ⟨rfl, ?_⟩
  norm_num [verify_fingerprint_capture, verify_fingerprint, fingerprint_combined,
    cosineSim, fingerprint_distance, fingerprint_correlation, sumSq, dotQ, subV,
    centered, meanQ, sqrtLookup, min_def, max_def]

/-- C9 amended: only the enrollment path rejects undersized captures (and
does so before feature extraction: the rejection is independent of the
extractor); the verification path runs extraction and scoring regardless
of the capture size. -/
theorem fingerprint_size_check_amended (extract extract2 : FpImage → List ℚ)
    (rt : ℚ → ℚ) (img : FpImage) (stored : List ℚ) (t : ℚ)
    (h : img.size < 10000) :
    enroll_fingerprint extract img =
      .error "Fingerprint enrollment failed: Fingerprint image too small. Please capture a clearer image." ∧
    enroll_fingerprint extract img = enroll_fingerprint extract2 img ∧
    ((extract img).length = stored.length →
      ∃ r, verify_fingerprint_capture rt extract img stored t = .ok r) := by
  refine ⟨by simp [enroll_fingerprint, h], by simp [enroll_fingerprint, h], ?_⟩
  intro hl
  unfold verify_fingerprint_capture verify_fingerprint
  rw [if_pos hl]
  exact ⟨_, rfl⟩

/-- Witness for C9 amended: a 10 x 10 capture. -/
theorem fingerprint_size_check_amended_witness :
    enroll_fingerprint (fun _ => [1, 1]) ⟨10, 10⟩ =
      .error "Fingerprint enrollment failed: Fingerprint image too small. Please capture a clearer image." :=
  (fingerprint_size_check_amended (fun _ => [1, 1]) (fun _ => [2, 2])
    sqrtLookup ⟨10, 10⟩ [] (1/20) (by decide)).1

/-! ## Base64 round-trip, framing transparency, and the decrypt relation
(encryption_service.py lines 39-102). -/

theorem b64Char_facts : ∀ i < 64, b64Val (b64Char i) = some i ∧
    isB64Char (b64Char i) = true ∧ b64Char i ≠ 61 := by decide

theorem b64_not_ws (c : Nat) (h : isB64Char c = true ∨ c = 61) :
    wsChars.contains c = false := by
  cases hc : wsChars.contains c
  · rfl
  · exfalso
    have hmem : c ∈ wsChars := List.elem_iff.mp hc
    rcases h with h | rfl
    · simp only [wsChars, List.mem_cons, List.not_mem_nil, or_false] at hmem
      rcases hmem with rfl | rfl | rfl | rfl | rfl | rfl <;>
        exact absurd h (by decide)
    · exact absurd hmem (by decide)

theorem b64_ne_10 (c : Nat) (h : isB64Char c = true ∨ c = 61) : c ≠ 10 := by
  intro hc
  subst hc
  exact absurd (b64_not_ws 10 h) (by decide)

theorem b64encode_mem : ∀ (bs : List Nat), BytesOk bs →
    ∀ c ∈ b64encode bs, isB64Char c = true ∨ c = 61 := by
  intro bs
  induction bs using b64encode.induct with
  | case1 a b c rest ih =>
    intro hd x hx
    have ha : a < 256 := hd a (by simp)
    have hb : b < 256 := hd b (by simp)
    have hc : c < 256 := hd c (by simp)
    simp only [b64encode, List.mem_cons] at hx
    rcases hx with rfl | rfl | rfl | rfl | hx
    · exact Or.inl (b64Char_facts _ (by omega)).2.1
    · exact Or.inl (b64Char_facts _ (by omega)).2.1
    · exact Or.inl (b64Char_facts _ (by omega)).2.1
    · exact Or.inl (b64Char_facts _ (by omega)).2.1
    · exact ih (fun y hy => hd y (by simp [hy])) x hx
  | case2 a b =>
    intro hd x hx
    have ha : a < 256 := hd a (by simp)
    have hb : b < 256 := hd b (by simp)
    simp only [b64encode, List.mem_cons, List.not_mem_nil, or_false] at hx
    rcases hx with rfl | rfl | rfl | rfl
    · exact Or.inl (b64Char_facts _ (by omega)).2.1
    · exact Or.inl (b64Char_facts _ (by omega)).2.1
    · exact Or.inl (b64Char_facts _ (by omega)).2.1
    · exact Or.inr rfl
  | case3 a =>
    intro hd x hx
    have ha : a < 256 := hd a (by simp)
    simp only [b64encode, List.mem_cons, List.not_mem_nil, or_false] at hx
    rcases hx with rfl | rfl | rfl | rfl
    · exact Or.inl (b64Char_facts _ (by omega)).2.1
    · exact Or.inl (b64Char_facts _ (by omega)).2.1
    · exact Or.inr rfl
    · exact Or.inr rfl
  | case4 =>
    intro _ x hx
    simp [b64encode] at hx

theorem b64decodeQuads_b64encode : ∀ (bs : List Nat), BytesOk bs →
    b64decodeQuads (b64encode bs) = .ok bs := by
  intro bs
  induction bs using b64encode.induct with
  | case1 a b c rest ih =>
    intro hd
    have ha : a < 256 := hd a (by simp)
    have hb : b < 256 := hd b (by simp)
    have hc : c < 256 := hd c (by simp)
    simp only [b64encode, b64decodeQuads]
    rw [if_neg (fun hcon => (b64Char_facts (c % 64) (by omega)).2.2 hcon.1)]
    rw [(b64Char_facts (a / 4) (by omega)).1,
      (b64Char_facts ((a % 4) * 16 + b / 16) (by omega)).1,
      (b64Char_facts ((b % 16) * 4 + c / 64) (by omega)).1,
      (b64Char_facts (c % 64) (by omega)).1]
    rw [ih (fun y hy => hd y (by simp [hy]))]
    simp only [Except.map, Except.ok.injEq, List.cons.injEq]
    refine ⟨?_, ?_, ?_, trivial⟩ <;> omega
  | case2 a b =>
    intro hd
    have ha : a < 256 := hd a (by simp)
    have hb : b < 256 := hd b (by simp)
    simp only [b64encode, b64decodeQuads]
    rw [if_pos ⟨trivial, trivial⟩,
      if_neg (b64Char_facts ((b % 16) * 4) (by omega)).2.2]
    rw [(b64Char_facts (a / 4) (by omega)).1,
      (b64Char_facts ((a % 4) * 16 + b / 16) (by omega)).1,
      (b64Char_facts ((b % 16) * 4) (by omega)).1]
    simp only [Except.ok.injEq, List.cons.injEq, and_true]
    constructor <;> omega
  | case3 a =>
    intro hd
    have ha : a < 256 := hd a (by simp)
    simp only [b64encode, b64decodeQuads]
    rw [if_pos ⟨trivial, trivial⟩]
    rw [(b64Char_facts (a / 4) (by omega)).1,
      (b64Char_facts ((a % 4) * 16) (by omega)).1]
    rw [if_pos trivial]
    simp only [Except.ok.injEq, List.cons.injEq, and_true]
    omega
  | case4 => intro _; rfl

theorem b64encode_filter (bs : List Nat) (hd : BytesOk bs) :
    (b64encode bs).filter (fun c => isB64Char c || c == 61) = b64encode bs := by
  apply List.filter_eq_self.mpr
  intro c hc
  rcases b64encode_mem bs hd c hc with h | rfl
  · simp [h]
  · simp

theorem b64decode_b64encode (bs : List Nat) (hd : BytesOk bs) :
    b64decode (b64encode bs) = .ok bs := by
  rw [b64decode, b64encode_filter bs hd, b64decodeQuads_b64encode bs hd]

theorem b64encode_ne_nil : ∀ (bs : List Nat), bs ≠ [] → b64encode bs ≠ []
  | [], h => absurd rfl h
  | [_], _ => by simp [b64encode]
  | [_, _], _ => by simp [b64encode]
  | _ :: _ :: _ :: _, _ => by simp [b64encode]

theorem dropWhile_eq_self_of_head (p : Nat → Bool) : ∀ (l : List Nat),
    (∀ c ∈ l.take 1, p c = false) → l.dropWhile p = l
  | [], _ => rfl
  | a :: t, h => by
    rw [List.dropWhile_cons, if_neg (by simp [h a (by simp)])]

/-- `str.strip()` is the identity when neither end of the string is
whitespace. -/
theorem pyStrip_eq_self (s : List Nat)
    (h1 : ∀ c ∈ s.take 1, wsChars.contains c = false)
    (h2 : ∀ c ∈ s.reverse.take 1, wsChars.contains c = false) :
    pyStrip s = s := by
  rw [pyStrip, dropWhile_eq_self_of_head _ s h1,
    dropWhile_eq_self_of_head _ s.reverse h2, List.reverse_reverse]

theorem splitNl_no_newline : ∀ (s : List Nat), 10 ∉ s → splitNl s = [s]
  | [], _ => rfl
  | c :: t, h => by
    have hc : ¬ c = 10 := fun hh => h (by simp [hh])
    simp only [splitNl, if_neg hc,
      splitNl_no_newline t (fun hh => h (by simp [hh]))]

/-- `split(chr(10))` on a two-line payload with newline-free lines. -/
theorem splitNl_append (a b : List Nat) (ha : 10 ∉ a) (hb : 10 ∉ b) :
    splitNl (a ++ 10 :: b) = [a, b] := by
  induction a with
  | nil =>
    simp only [List.nil_append, splitNl, if_true, splitNl_no_newline b hb]
  | cons c t ih =>
    have hc : ¬ c = 10 := fun hh => ha (by simp [hh])
    rw [List.cons_append]
    simp only [splitNl, if_neg hc, ih (fun hh => ha (by simp [hh]))]

theorem pkcs7Pad_bytesOk (data : List Nat) (hd : BytesOk data) :
    BytesOk (pkcs7Pad data) := by
  intro x hx
  rw [pkcs7Pad] at hx
  rcases List.mem_append.mp hx with hx | hx
  · exact hd x hx
  · rw [List.eq_of_mem_replicate hx]
    omega

theorem pkcs7Pad_length (data : List Nat) :
    (pkcs7Pad data).length = data.length + (16 - data.length % 16) := by
  simp [pkcs7Pad]

theorem pkcs7Pad_mod (data : List Nat) : (pkcs7Pad data).length % 16 = 0 := by
  rw [pkcs7Pad_length]; omega

theorem pkcs7Pad_len_ge (data : List Nat) : 16 ≤ (pkcs7Pad data).length := by
  rw [pkcs7Pad_length]; omega

theorem pkcs7Pad_ne_nil (data : List Nat) : pkcs7Pad data ≠ [] := by
  intro h
  have := congrArg List.length h
  rw [pkcs7Pad_length] at this
  simp at this
  omega

theorem cbcEncrypt_length (key iv data : List Nat) (hr : RksOk (roundKeys key))
    (hiv : BlockOk iv) (hd : BytesOk data) (hlen : data.length % 16 = 0) :
    (cbcEncrypt key iv data).length = data.length := by
  have hbs := toChunks16_blockOk data hlen hd
  have hencOk := cbcEncBlocks_blockOk key hr iv (toChunks16 data) hiv hbs
  rw [cbcEncrypt, flatten_length_const 16 _ (fun b hb => (hencOk b hb).1),
    cbcEncBlocks_length, toChunks16, chunksN_length]
  omega

theorem cbcEncrypt_bytesOk (key iv data : List Nat) (hr : RksOk (roundKeys key))
    (hiv : BlockOk iv) (hd : BytesOk data) (hlen : data.length % 16 = 0) :
    BytesOk (cbcEncrypt key iv data) := by
  intro x hx
  rw [cbcEncrypt] at hx
  rcases List.mem_flatten.mp hx with ⟨b, hb, hxb⟩
  exact (cbcEncBlocks_blockOk key hr iv _ hiv
    (toChunks16_blockOk data hlen hd) b hb).2 x hxb

/-- CBC decryption with the wrong IV still succeeds: only the first
plaintext block is garbled (xored with the xor of the two IVs), the tail
decrypts exactly. -/
theorem cbcDecBlocks_wrong_iv (key iv iv2 : List Nat)
    (hr : RksOk (roundKeys key)) (hiv : BlockOk iv) (b1 : List Nat)
    (bs : List (List Nat)) (h1 : BlockOk b1) (hbs : ∀ b ∈ bs, BlockOk b) :
    cbcDecBlocks key iv2 (cbcEncBlocks key iv (b1 :: bs)) =
      xorBytes b1 (xorBytes iv iv2) :: bs := by
  have hx : BlockOk (xorBytes b1 iv) :=
    ⟨by rw [xorBytes_length, h1.1, hiv.1]; simp, xorBytes_bytesOk h1.2 hiv.2⟩
  simp only [cbcEncBlocks, cbcDecBlocks]
  rw [aesDecryptBlock_aesEncryptBlock key _ hr hx,
    cbcDecBlocks_cbcEncBlocks key hr _ bs (aesEncryptBlock_blockOk key _ hr hx)
      hbs,
    xorBytes_assoc]

theorem cbcDecrypt_wrong_iv (key iv iv2 data : List Nat)
    (hr : RksOk (roundKeys key)) (hiv : BlockOk iv) (hiv2 : iv2.length = 16)
    (hd : BytesOk data) (hlen : data.length % 16 = 0) (hne : data ≠ []) :
    cbcDecrypt key iv2 (cbcEncrypt key iv data) =
      .ok (xorBytes (data.take 16) (xorBytes iv iv2) ++ data.drop 16) := by
  have hbs0 := toChunks16_blockOk data hlen hd
  have hencOk := cbcEncBlocks_blockOk key hr iv (toChunks16 data) hiv hbs0
  have henclen : ∀ b ∈ cbcEncBlocks key iv (toChunks16 data), b.length = 16 :=
    fun b hb => (hencOk b hb).1
  have hctlen : (cbcEncrypt key iv data).length =
      16 * (cbcEncBlocks key iv (toChunks16 data)).length :=
    flatten_length_const 16 _ henclen
  have hchunks : toChunks16 (cbcEncrypt key iv data) =
      cbcEncBlocks key iv (toChunks16 data) := by
    rw [toChunks16, hctlen, Nat.mul_div_cancel_left _ (by norm_num : (0:Nat) < 16)]
    exact chunksN_of_blocks 16 _ henclen
  rw [cbcDecrypt, if_neg (by rw [hiv2]; omega), if_neg (by rw [hctlen]; omega),
    hchunks]
  obtain ⟨b1, bs, hch⟩ : ∃ b1 bs, toChunks16 data = b1 :: bs := by
    cases hc : toChunks16 data with
    | nil =>
      exfalso
      have hfl := toChunks16_flatten data hlen
      rw [hc] at hfl
      exact hne (by simpa using hfl.symm)
    | cons x xs => exact ⟨x, xs, rfl⟩
  have hflat := toChunks16_flatten data hlen
  rw [hch] at hflat hbs0
  have hb1 : BlockOk b1 := hbs0 b1 (by simp)
  rw [hch, cbcDecBlocks_wrong_iv key iv iv2 hr hiv b1 bs hb1
    (fun b hb => hbs0 b (by simp [hb])), List.flatten_cons]
  have htake : data.take 16 = b1 := by
    rw [← hflat, List.flatten_cons, List.take_left' hb1.1]
  have hdrop : data.drop 16 = bs.flatten := by
    rw [← hflat, List.flatten_cons, List.drop_left' hb1.1]
  rw [htake, hdrop]

/-- `decrypt` on a well-framed two-line payload: the strip, split and
base64 layers are transparent and the result is decided by the CBC
decryption, the unpad and the UTF-8 check. -/
theorem decrypt_framed (s : EncryptionService) (u v : List Nat)
    (hu : BytesOk u) (hv : BytesOk v) (hune : u ≠ []) (hvne : v ≠ []) :
    s.decrypt (b64encode u ++ 10 :: b64encode v) =
      (match cbcDecrypt s.encryption_key u v with
       | .ok padded =>
         (match pkcs7Unpad padded with
          | .ok pt => if utf8Valid pt then .ok pt
            else .error "Failed to decrypt data: invalid utf-8"
          | .error e => .error ("Failed to decrypt data: " ++ e))
       | .error e => .error ("Failed to decrypt data: " ++ e)) := by
  have hmemu := b64encode_mem u hu
  have hmemv := b64encode_mem v hv
  obtain ⟨cu, tu, hcu⟩ := List.exists_cons_of_ne_nil (b64encode_ne_nil u hune)
  obtain ⟨cv, tv, hcv⟩ := List.exists_cons_of_ne_nil
    (List.reverse_eq_nil_iff.ne.mpr (b64encode_ne_nil v hvne))
  have h1 : ∀ c ∈ (b64encode u ++ 10 :: b64encode v).take 1,
      wsChars.contains c = false := by
    intro c hc
    rw [hcu, List.cons_append] at hc
    have hred : (cu :: (tu ++ 10 :: b64encode v)).take 1 = [cu] := rfl
    rw [hred, List.mem_singleton] at hc
    subst hc
    exact b64_not_ws c (hmemu c (by rw [hcu]; simp))
  have h2 : ∀ c ∈ (b64encode u ++ 10 :: b64encode v).reverse.take 1,
      wsChars.contains c = false := by
    intro c hc
    rw [List.reverse_append, List.reverse_cons, hcv, List.cons_append,
      List.cons_append] at hc
    have hred : (cv :: ((tv ++ [10]) ++ (b64encode u).reverse)).take 1 =
        [cv] := rfl
    rw [hred, List.mem_singleton] at hc
    subst hc
    exact b64_not_ws c (hmemv c (List.mem_reverse.mp (by rw [hcv]; simp)))
  have h10u : 10 ∉ b64encode u := fun hh => by
    rcases hmemu 10 hh with h | h
    · exact absurd h (by decide)
    · exact absurd h (by decide)
  have h10v : 10 ∉ b64encode v := fun hh => by
    rcases hmemv 10 hh with h | h
    · exact absurd h (by decide)
    · exact absurd h (by decide)
  unfold EncryptionService.decrypt
  rw [pyStrip_eq_self _ h1 h2, splitNl_append _ _ h10u h10v]
  simp only [b64decode_b64encode u hu, b64decode_b64encode v hv]

/-- The AES round keys derived from the service key (a SHA-256 digest,
hence 32 in-range bytes) are well formed. -/
theorem service_rksOk (s : EncryptionService) :
    RksOk (roundKeys s.encryption_key) :=
  roundKeys_rksOk s.encryption_key (sha256_length s.password)
    (sha256_bytesOk s.password)

/-- C8: for every byte payload and every 16-byte IV, decrypting the
output of `encrypt` with the same service instance recovers the payload
exactly (the payload is the UTF-8 encoding of the plaintext string, so it
is a valid UTF-8 byte string of in-range bytes). -/
theorem decrypt_encrypt_roundtrip (s : EncryptionService) (iv data : List Nat)
    (hiv : iv.length = 16) (hivB : BytesOk iv) (hd : BytesOk data)
    (hval : utf8Valid data = true) :
    s.decrypt (s.encrypt iv data) = .ok data := by
  have hr := service_rksOk s
  have hivOk : BlockOk iv := ⟨hiv, hivB⟩
  have hpadB : BytesOk (pkcs7Pad data) := pkcs7Pad_bytesOk data hd
  have hpadMod := pkcs7Pad_mod data
  have hct := cbcDecrypt_cbcEncrypt s.encryption_key iv (pkcs7Pad data)
    hr hivOk hpadB hpadMod
  have hctB : BytesOk (cbcEncrypt s.encryption_key iv (pkcs7Pad data)) :=
    cbcEncrypt_bytesOk _ _ _ hr hivOk hpadB hpadMod
  have hctlen : (cbcEncrypt s.encryption_key iv (pkcs7Pad data)).length =
      (pkcs7Pad data).length :=
    cbcEncrypt_length _ _ _ hr hivOk hpadB hpadMod
  have hctne : cbcEncrypt s.encryption_key iv (pkcs7Pad data) ≠ [] := by
    intro hh
    have hl := congrArg List.length hh
    rw [hctlen, List.length_nil] at hl
    have hge := pkcs7Pad_len_ge data
    omega
  have hivne : iv ≠ [] := by
    intro hh
    rw [hh] at hiv
    simp at hiv
  rw [show s.encrypt iv data = b64encode iv ++ 10 ::
      b64encode (cbcEncrypt s.encryption_key iv (pkcs7Pad data)) from rfl,
    decrypt_framed s iv _ hivB hctB hivne hctne]
  simp only [hct, pkcs7Unpad_pkcs7Pad data, hval, if_true]

/-- Witness for C8 at a concrete service, IV and payload. -/
theorem decrypt_encrypt_roundtrip_witness :
    (EncryptionService.ofParams none none).decrypt
        ((EncryptionService.ofParams none none).encrypt (List.replicate 16 0)
          (strBytes "AB")) = .ok (strBytes "AB") :=
  decrypt_encrypt_roundtrip (EncryptionService.ofParams none none)
    (List.replicate 16 0) (strBytes "AB")
    (by decide) (by decide) (by decide) (by decide)

/-- `decrypt` applied to a blob whose IV line was replaced (the framing
and ciphertext line intact): CBC without authentication decrypts it
successfully whenever the garbled first block still unpads and decodes,
returning a plaintext that differs from the original wherever the IVs
differ. -/
theorem decrypt_wrong_iv_line (s : EncryptionService) (iv iv2 data pt : List Nat)
    (hiv : iv.length = 16) (hivB : BytesOk iv) (hiv2 : iv2.length = 16)
    (hiv2B : BytesOk iv2) (hd : BytesOk data)
    (hun : pkcs7Unpad (xorBytes ((pkcs7Pad data).take 16) (xorBytes iv iv2) ++
      (pkcs7Pad data).drop 16) = .ok pt)
    (hval : utf8Valid pt = true) :
    s.decrypt (b64encode iv2 ++ 10 :: b64encode
      (cbcEncrypt s.encryption_key iv (pkcs7Pad data))) = .ok pt := by
  have hr := service_rksOk s
  have hivOk : BlockOk iv := ⟨hiv, hivB⟩
  have hpadB : BytesOk (pkcs7Pad data) := pkcs7Pad_bytesOk data hd
  have hpadMod := pkcs7Pad_mod data
  have hct := cbcDecrypt_wrong_iv s.encryption_key iv iv2 (pkcs7Pad data)
    hr hivOk hiv2 hpadB hpadMod (pkcs7Pad_ne_nil data)
  have hctB : BytesOk (cbcEncrypt s.encryption_key iv (pkcs7Pad data)) :=
    cbcEncrypt_bytesOk _ _ _ hr hivOk hpadB hpadMod
  have hctlen : (cbcEncrypt s.encryption_key iv (pkcs7Pad data)).length =
      (pkcs7Pad data).length :=
    cbcEncrypt_length _ _ _ hr hivOk hpadB hpadMod
  have hctne : cbcEncrypt s.encryption_key iv (pkcs7Pad data) ≠ [] := by
    intro hh
    have hl := congrArg List.length hh
    rw [hctlen, List.length_nil] at hl
    have hge := pkcs7Pad_len_ge data
    omega
  have hiv2ne : iv2 ≠ [] := by
    intro hh
    rw [hh] at hiv2
    simp at hiv2
  rw [decrypt_framed s iv2 _ hiv2B hctB hiv2ne hctne]
  simp only [hct, hun, hval, if_true]

/-- C1 (as amended): the CBC construction carries no authentication, so a
blob whose IV line was tampered with does NOT surface a decryption error:
`decrypt` returns successfully with a plaintext different from the stored
one, and face verification proceeds to its scoring decision on that wrong
template instead of aborting. -/
theorem tampered_blob_decrypts {α : Type} (s : EncryptionService)
    (decision : List Nat → α) (iv iv2 data pt : List Nat)
    (hiv : iv.length = 16) (hivB : BytesOk iv) (hiv2 : iv2.length = 16)
    (hiv2B : BytesOk iv2) (hd : BytesOk data) (hne : pt ≠ data)
    (hun : pkcs7Unpad (xorBytes ((pkcs7Pad data).take 16) (xorBytes iv iv2) ++
      (pkcs7Pad data).drop 16) = .ok pt)
    (hval : utf8Valid pt = true) :
    s.decrypt (b64encode iv2 ++ 10 :: b64encode
      (cbcEncrypt s.encryption_key iv (pkcs7Pad data))) = .ok pt ∧
    pt ≠ data ∧
    verify_face_outcome s (b64encode iv2 ++ 10 :: b64encode
      (cbcEncrypt s.encryption_key iv (pkcs7Pad data))) decision =
      .ok (decision pt) := by
  have h1 := decrypt_wrong_iv_line s iv iv2 data pt hiv hivB hiv2 hiv2B hd
    hun hval
  refine ⟨h1, hne, ?_⟩
  unfold verify_face_outcome
  rw [h1]

/-- Witness for the amended C1 theorem at a concrete service, IV pair and
payload. -/
theorem tampered_blob_decrypts_witness :
    (EncryptionService.ofParams none none).decrypt
        (b64encode (64 :: List.replicate 15 0) ++ 10 :: b64encode
          (cbcEncrypt (EncryptionService.ofParams none none).encryption_key
            (List.replicate 16 0) (pkcs7Pad (strBytes "AAAAAAAAAAAAAAAA")))) =
      .ok (1 :: List.replicate 15 65) ∧
    (1 :: List.replicate 15 65) ≠ strBytes "AAAAAAAAAAAAAAAA" ∧
    verify_face_outcome (EncryptionService.ofParams none none)
        (b64encode (64 :: List.replicate 15 0) ++ 10 :: b64encode
          (cbcEncrypt (EncryptionService.ofParams none none).encryption_key
            (List.replicate 16 0) (pkcs7Pad (strBytes "AAAAAAAAAAAAAAAA"))))
        (fun t => t.getD 0 0) = .ok 1 :=
  tampered_blob_decrypts (EncryptionService.ofParams none none)
    (fun t => t.getD 0 0) (List.replicate 16 0) (64 :: List.replicate 15 0)
    (strBytes "AAAAAAAAAAAAAAAA") (1 :: List.replicate 15 65)
    (by decide) (by decide) (by decide) (by decide) (by decide) (by decide)
    (by rfl) (by decide)

/-- Setting byte 0 of an encrypted blob to itself xor 16 flips one bit of
the base64 IV line: for the all-zero IV it turns the leading `A` into `Q`,
i.e. rewrites the IV line to the base64 encoding of the IV with its first
byte changed from 0 to 64.  The ciphertext line is untouched. -/
theorem tamper_set_bit (L : List Nat) :
    ((b64encode (List.replicate 16 0) ++ 10 :: L).set 0 81) =
    b64encode (64 :: List.replicate 15 0) ++ 10 :: L := rfl

/-- C1 counterexample: one bit flipped in a stored encrypted blob (byte 0
xored with 16).  `decrypt` does not report an error: it returns a
plaintext that differs from the enrolled template, and the verify control
flow hands that wrong template to the scoring decision. -/
theorem tampered_blob_counterexample :
    ((EncryptionService.ofParams none none).decrypt
        (((EncryptionService.ofParams none none).encrypt (List.replicate 16 0)
            (strBytes "AAAAAAAAAAAAAAAA")).set 0
          ((((EncryptionService.ofParams none none).encrypt (List.replicate 16 0)
            (strBytes "AAAAAAAAAAAAAAAA")).getD 0 0) ^^^ 16)) =
      .ok (1 :: List.replicate 15 65)) ∧
    (1 :: List.replicate 15 65) ≠ strBytes "AAAAAAAAAAAAAAAA" ∧
    verify_face_outcome (EncryptionService.ofParams none none)
        (((EncryptionService.ofParams none none).encrypt (List.replicate 16 0)
            (strBytes "AAAAAAAAAAAAAAAA")).set 0
          ((((EncryptionService.ofParams none none).encrypt (List.replicate 16 0)
            (strBytes "AAAAAAAAAAAAAAAA")).getD 0 0) ^^^ 16))
        (fun t => t.getD 0 0) = .ok 1 := by
  have henc : (EncryptionService.ofParams none none).encrypt
      (List.replicate 16 0) (strBytes "AAAAAAAAAAAAAAAA") =
      b64encode (List.replicate 16 0) ++ 10 ::
        b64encode (cbcEncrypt
          (EncryptionService.ofParams none none).encryption_key
          (List.replicate 16 0) (pkcs7Pad (strBytes "AAAAAAAAAAAAAAAA"))) := rfl
  rw [henc]
  rw [show ∀ L : List Nat,
      (b64encode (List.replicate 16 0) ++ 10 :: L).getD 0 0 = 65 from
    fun _ => rfl]
  rw [show (65 : Nat) ^^^ 16 = 81 from rfl, tamper_set_bit]
  have h1 := decrypt_wrong_iv_line (EncryptionService.ofParams none none)
    (List.replicate 16 0) (64 :: List.replicate 15 0)
    (strBytes "AAAAAAAAAAAAAAAA") (1 :: List.replicate 15 65)
    (by decide) (by decide) (by decide) (by decide) (by decide)
    (by rfl) (by decide)
  refine ⟨h1, by decide, ?_⟩
  unfold verify_face_outcome
  rw [h1]
  rfl

end Biometry
